import Mathlib

/-!
Verification of the interval-algebra core of the msa_rcalendar repository
(src/rcalendar/models.py) against its natural-language specification.

Modelling conventions (shallow embedding):
* Instants (Python timezone-aware datetimes) are integers, measured in
  minutes; all instants are taken in UTC.  Dates are integers (days since
  1970-01-01, which was a Thursday), so the instant of midnight of day `d`
  is `1440 * d`.  The time axis itself is dense (datetimes have microsecond
  resolution): the coverage predicate `covers` therefore quantifies over ℚ.
* `Interval.JOIN_GAP = timedelta(minutes=5)` becomes the integer `5`.
* Django rows become the structure `Ival`; the Python field `end` is a Lean
  keyword and is rendered `stop`.  The primary key `pk`/`id` is `Option ℤ`
  (`none` for unsaved instances).  Foreign keys are integers (`resource`)
  or `Option ℤ` (`organization`, `manager`, nullable in the schema).
* A queryset is a list of rows in database order; `filter`/`exclude`
  become `List.filter`.  `qs.delete()` removes exactly the rows matching
  the queryset predicate.
* Python iteration `for interval in existing: ... existing.remove(interval)`
  removes the element at the current position and then skips the element
  that slides into that position (the iterator index has already advanced);
  `joinWE` and `dropShort` reproduce exactly that behaviour.
* Events (EventDispatcher) have no effect on stored intervals and are not
  modelled; `save`'s relational checks that consult tables other than
  Interval (manager membership, resource membership, other memberships'
  schedules, models.py lines 385-391 and 420-422) are oracles in `Ctx`.
-/

namespace RCal

/-- Interval.JOIN_GAP = datetime.timedelta(minutes=5) (models.py line 175). -/
def JOIN_GAP : ℤ := 5

/-- Interval.Kind_OrganizationReserved = 0 (models.py line 177). -/
def Kind_OrganizationReserved : ℤ := 0

/-- Interval.Kind_ManagerReserved = 10 (models.py line 178). -/
def Kind_ManagerReserved : ℤ := 10

/-- Interval.Kind_Unavailable = 100 (models.py line 179). -/
def Kind_Unavailable : ℤ := 100

/-- A row of the Interval table (models.py lines 169-196).  `stop` renders the
Python field `end` (a Lean keyword). -/
structure Ival where
  id : Option ℤ := none
  start : ℤ
  stop : ℤ
  kind : ℤ := Kind_OrganizationReserved
  resource : ℤ
  organization : Option ℤ := none
  manager : Option ℤ := none
  comment : Option String := none
  deriving Repr, DecidableEq

/-- Interval validity `start < end`, enforced by `Interval.save`
(models.py line 377). -/
def Ival.wf (i : Ival) : Prop := i.start < i.stop

instance (i : Ival) : Decidable i.wf := inferInstanceAs (Decidable (i.start < i.stop))

/-- An argument that may be a date or a datetime (models.py line 15,
`DateOrDatetime`).  A date is a day number, a datetime an instant. -/
inductive DateOrDatetime where
  | date (d : ℤ)
  | datetime (t : ℤ)
  deriving Repr, DecidableEq

/-- utils.datetime_from_date: midnight of the given day. -/
def datetime_from_date (d : ℤ) : ℤ := 1440 * d

/-- IntervalQuerySet.between normalization of the `start` argument
(models.py lines 112-113). -/
def betweenStart : DateOrDatetime → ℤ
  | .datetime t => t
  | .date d => datetime_from_date d

/-- IntervalQuerySet.between normalization of the `end` argument
(models.py lines 114-117): a date is first advanced by one day when
`include_end_date` is set, then converted to midnight. -/
def betweenStop (include_end_date : Bool) : DateOrDatetime → ℤ
  | .datetime t => t
  | .date d => datetime_from_date (if include_end_date then d + 1 else d)

/-- The row condition of IntervalQuerySet.between after normalization
(models.py lines 118-121): the three-way union filter followed by the two
boundary excludes. -/
def betweenCond (s e : ℤ) (o : Ival) : Bool :=
  ((o.start ≤ s ∧ o.stop ≥ e) ∨ (s ≤ o.start ∧ o.start ≤ e) ∨ (s ≤ o.stop ∧ o.stop ≤ e))
    ∧ o.start ≠ e ∧ o.stop ≠ s

/-- IntervalQuerySet.between (models.py lines 108-121). -/
def between (db : List Ival) (start stop : DateOrDatetime) (include_end_date : Bool := true) :
    List Ival :=
  db.filter (betweenCond (betweenStart start) (betweenStop include_end_date stop))

/-- IntervalQuerySet.at_date for a datetime argument (models.py lines 123-127). -/
def at_date (db : List Ival) (dt : ℤ) : List Ival :=
  db.filter fun o => decide (o.start < dt) && decide (o.stop > dt)

/-- The row condition of IntervalQuerySet.similar (models.py lines 129-145):
same (resource, kind, organization, manager), with NULL matching NULL, and
excluding the probe row itself when it has a primary key. -/
def similarCond (i : Ival) (o : Ival) : Bool :=
  o.resource == i.resource && o.kind == i.kind && o.organization == i.organization
    && o.manager == i.manager && (i.id.isNone || o.id != i.id)

/-- IntervalQuerySet.similar (models.py lines 129-145). -/
def similar (i : Ival) (db : List Ival) : List Ival := db.filter (similarCond i)

/-- One step of the branch ladder of the in-memory mode of
Interval.join_with_existing (models.py lines 290-310): given the current
bounds of `self` and a member `o` of `existing`, return the updated `self`
when a branch fires (and `o` is removed), or `none` when no branch fires. -/
def joinClassify (tol : ℤ) (s o : Ival) : Option Ival :=
  if o.start ≥ s.start ∧ o.stop ≤ s.stop then
    some s
  else if o.start < s.start ∧ o.stop > s.stop then
    some { s with start := o.start, stop := o.stop }
  else if (o.start < s.start ∧ s.start < o.stop) ∨ (s.start > o.stop ∧ s.start - o.stop < tol) then
    some { s with start := o.start }
  else if (o.start < s.stop ∧ s.stop < o.stop) ∨ (o.start > s.stop ∧ o.start - s.stop < tol) then
    some { s with stop := o.stop }
  else
    none

/-- The loop of the in-memory mode of Interval.join_with_existing
(models.py lines 289-310), with Python list-mutation-during-iteration
semantics: when a branch removes the current member, the member sliding
into its position is skipped (kept unexamined).  Returns the final `self`,
the members kept in `existing` (in order) and the removed members. -/
def joinWE (tol : ℤ) (s : Ival) : List Ival → Ival × List Ival × List Ival
  | [] => (s, [], [])
  | o :: rest =>
    match joinClassify tol s o with
    | some s₁ =>
      match rest with
      | [] => (s₁, [], [o])
      | p :: rest₁ =>
        let r := joinWE tol s₁ rest₁
        (r.1, p :: r.2.1, o :: r.2.2)
    | none =>
      let r := joinWE tol s rest
      (r.1, o :: r.2.1, r.2.2)

/-- Interval.join_with_existing in in-memory mode (models.py lines 255-312,
`do_append` branch): returns the widened `self`, the new contents of
`existing`, and the `changed` flag (set exactly when some member was
removed). -/
def join_with_existing (s : Ival) (existing : List Ival) (tol : ℤ) :
    Ival × List Ival × Bool :=
  let r := joinWE tol s existing
  (r.1, r.2.1, !r.2.2.isEmpty)

/-- The accumulator `existing` built by the loop of
IntervalQuerySet.is_continuous (models.py lines 152-155): fold each member
into the accumulator with `join_with_existing(existing, timedelta=0)` and
append it. -/
def continuityAcc (qs : List Ival) : List Ival :=
  qs.foldl (fun acc i =>
    let r := join_with_existing i acc 0
    r.2.1 ++ [r.1]) []

/-- IntervalQuerySet.is_continuous (models.py lines 147-156): continuous iff
a single interval remains in the accumulator and it covers `[start, end]`. -/
def is_continuous (qs : List Ival) (start stop : ℤ) : Bool :=
  match continuityAcc qs with
  | [e] => decide (e.start ≤ start) && decide (e.stop ≥ stop)
  | _ => false

/-- The aggregate Min over the starts of a nonempty queryset,
folded together with `self.start` (models.py lines 283-285:
`self.start = min(d[start__min], self.start)`). -/
def foldMin (x : ℤ) (l : List ℤ) : ℤ := l.foldr min x

/-- The aggregate Max over the ends of a nonempty queryset, folded together
with `self.end` (models.py line 286). -/
def foldMax (x : ℤ) (l : List ℤ) : ℤ := l.foldr max x

/-- The queryset condition of the persistent mode of
Interval.join_with_existing (models.py line 277):
`Interval.objects.similar(self).between(self.start - timedelta, self.end + timedelta)`. -/
def joinWindow (tol : ℤ) (s : Ival) (o : Ival) : Bool :=
  similarCond s o && betweenCond (s.start - tol) (s.stop + tol) o

/-- Interval.join_with_existing in persistent mode (models.py lines 282-288):
widen `self` to the Min/Max aggregate of the similar window and delete the
window from the store.  Returns the widened `self`, the new store and the
`changed` flag. -/
def join_with_existing_db (s : Ival) (db : List Ival) (tol : ℤ) :
    Ival × List Ival × Bool :=
  let w := db.filter (joinWindow tol s)
  if w.isEmpty then (s, db, false)
  else
    ({ s with
        start := foldMin s.start (w.map Ival.start),
        stop := foldMax s.stop (w.map Ival.stop) },
      db.filter fun o => !joinWindow tol s o,
      true)

/-- The branch ladder of Interval.substract_from_existing
(models.py lines 327-363) applied to one stored row `o`: the list of rows
that replace `o` in the store.  In the split branch the freshly created
right piece inherits kind, resource, manager, organization and comment from
`o` (models.py lines 334-340) and is saved without joining. -/
def substractPieces (s o : Ival) : List Ival :=
  if o.start < s.start ∧ o.stop > s.stop then
    [{ o with stop := s.start },
     { id := none, start := s.stop, stop := o.stop, kind := o.kind,
       resource := o.resource, organization := o.organization,
       manager := o.manager, comment := o.comment }]
  else if o.start < s.start ∧ s.start < o.stop then
    [{ o with stop := s.start }]
  else if o.start < s.stop ∧ s.stop < o.stop then
    [{ o with start := s.stop }]
  else if o.start ≥ s.start ∧ o.stop ≤ s.stop then
    []
  else
    [o]

/-- Whether some branch of substract_from_existing fires for row `o`
(models.py lines 328-363); each branch sets `changed = True`. -/
def substractHits (s o : Ival) : Bool :=
  (o.start < s.start ∧ o.stop > s.stop) ∨ (o.start < s.start ∧ s.start < o.stop)
    ∨ (o.start < s.stop ∧ s.stop < o.stop) ∨ (o.start ≥ s.start ∧ o.stop ≤ s.stop)

/-- Interval.substract_from_existing in persistent mode
(models.py lines 314-364).  `T` is the row condition of the processed
queryset: when called with `existing=None` it is
`similar(self).between(self.start, self.end)` (line 322), while
apply_schedule passes its own queryset (line 550).  Rows matching `T` are
replaced by their pieces (trimmed in place, deleted, or split with the new
right piece inserted); other rows are untouched. -/
def substract_from_existing_db (s : Ival) (db : List Ival) (T : Ival → Bool) :
    List Ival × Bool :=
  (db.flatMap fun o => if T o then substractPieces s o else [o],
   (db.filter T).any (substractHits s))

/-- The default queryset of substract_from_existing when `existing=None`
(models.py line 322): `similar(self).between(self.start, self.end)`. -/
def substractDefaultT (s : Ival) : Ival → Bool := fun o =>
  similarCond s o && betweenCond s.start s.stop o

/-- A validation failure (exceptions.FormError): a field name and a
message. -/
structure FormError where
  field : String
  message : String
  deriving Repr, DecidableEq

/-- Error message of models.py line 378. -/
def msgEndGreater : String := "End date must be greater than start date."

/-- Error message of models.py line 382. -/
def msgOrgRequired : String := "You must specify organization for this interval."

/-- Error message of models.py line 386. -/
def msgOnlyManagers : String := "Only managers can reserve time for organization."

/-- Error message of models.py line 391. -/
def msgResourceNotInOrg : String := "Resource is not in specified organization."

/-- Error message of models.py line 399. -/
def msgManagerRequired : String := "You must specify manager for this interval."

/-- Error message of models.py line 403; the source literal reads
`This period is\x27t fall within organization time.` -/
def msgNotFallOrgTime : String := "This period is\x27t fall within organization time."

/-- Error message of models.py line 406. -/
def msgAnotherManager : String := "This period is reserved for another manager."

/-- Error message of models.py line 410. -/
def msgAlreadyReserved : String := "This period is already reserved."

/-- Error message of models.py line 415. -/
def msgAlreadyReservedOrg : String := "This period is already reserved for organization."

/-- Error message of models.py line 418. -/
def msgAnotherOrganization : String := "This period falls within another organization."

/-- Error message of models.py line 422. -/
def msgAnotherOrgSchedule : String := "This period falls within another organization\x27s schedule."

/-- Oracles for the relational checks of Interval.save that consult tables
other than Interval: manager membership in an organization (line 385),
resource membership (lines 389-390), and intersection with another
membership's schedule fragments (lines 420-422). -/
structure Ctx where
  managerInOrg : ℤ → Option ℤ → Bool
  resourceInOrg : ℤ → Option ℤ → Bool
  scheduleConflict : Ival → Bool

/-- Replace the stored row carrying `s`'s primary key by `s`
(Model.save on an instance with a pk); an instance without a pk is
inserted at the end of the table. -/
def persist (s : Ival) (db : List Ival) : List Ival :=
  match s.id with
  | none => db ++ [s]
  | some _ => db.map fun o => if o.id == s.id then s else o

/-- The queryset `qs` of Interval.save (models.py lines 393-395):
`Interval.objects.between(self.start, self.end).filter(resource=self.resource)`
minus the saved row itself when it has a primary key. -/
def saveQs (s : Ival) (db : List Ival) : List Ival :=
  (between db (.datetime s.start) (.datetime s.stop)).filter fun o =>
    o.resource == s.resource && (s.id.isNone || o.id != s.id)

/-- The OrgReserved rows of `saveQs` for the saved row's organization
(models.py line 401 and line 413). -/
def orgWindow (s : Ival) (db : List Ival) : List Ival :=
  (saveQs s db).filter fun o =>
    o.kind == Kind_OrganizationReserved && o.organization == s.organization

/-- The writing tail of Interval.save (models.py lines 424-432): the
persistent join when `join_existing` is set, then `Model.save`. -/
def saveCommit (s : Ival) (db : List Ival) (join_existing : Bool) :
    Ival × List Ival :=
  let r := if join_existing then join_with_existing_db s db JOIN_GAP
           else (s, db, false)
  (r.1, persist r.1 r.2.1)

/-- Interval.save (models.py lines 367-432): the validation ladder, then the
persistent join (when `join_existing`), then the write.  Raising a
FormError is modelled by Except.error; nothing is committed in that case. -/
def save (ctx : Ctx) (s : Ival) (db : List Ival) (join_existing : Bool := true) :
    Except FormError (Ival × List Ival) :=
  if s.start ≥ s.stop then
    .error ⟨"end", msgEndGreater⟩
  else if s.organization.isNone ∧ s.kind ≠ Kind_Unavailable then
    .error ⟨"organization", msgOrgRequired⟩
  else if s.organization.isSome ∧ s.manager.isSome
      ∧ ¬ctx.managerInOrg (s.manager.getD 0) s.organization then
    .error ⟨"", msgOnlyManagers⟩
  else if s.organization.isSome ∧ ¬ctx.resourceInOrg s.resource s.organization then
    .error ⟨"", msgResourceNotInOrg⟩
  else if s.kind = Kind_ManagerReserved then
    if s.manager.isNone then
      .error ⟨"manager", msgManagerRequired⟩
    else if ¬is_continuous (orgWindow s db) s.start s.stop then
      .error ⟨"", msgNotFallOrgTime⟩
    else if (saveQs s db |>.filter fun o =>
        o.kind == Kind_ManagerReserved && o.manager != s.manager) ≠ [] then
      .error ⟨"", msgAnotherManager⟩
    else if is_continuous
        (saveQs s db |>.filter fun o =>
          o.kind == Kind_ManagerReserved && o.organization == s.organization
            && o.manager == s.manager)
        s.start s.stop then
      .error ⟨"", msgAlreadyReserved⟩
    else
      .ok (saveCommit s db join_existing)
  else if s.kind = Kind_OrganizationReserved then
    if is_continuous (orgWindow s db) s.start s.stop then
      .error ⟨"", msgAlreadyReservedOrg⟩
    else if (saveQs s db |>.filter fun o =>
        o.kind == Kind_OrganizationReserved && o.organization != s.organization) ≠ [] then
      .error ⟨"", msgAnotherOrganization⟩
    else if ctx.scheduleConflict s then
      .error ⟨"", msgAnotherOrgSchedule⟩
    else
      .ok (saveCommit s db join_existing)
  else
    .ok (saveCommit s db join_existing)

/-- The store after Interval.save, with a raised FormError rolling the
transaction back (store unchanged). -/
def commitSave (ctx : Ctx) (s : Ival) (db : List Ival) (join_existing : Bool := true) :
    List Ival :=
  match save ctx s db join_existing with
  | .ok r => r.2
  | .error _ => db

/-- ResourceMembership.strip_organization_time (models.py lines 503-512):
set the watermark to `now`, then for every interval of (resource,
organization) strictly covering `now` set its end to `now` and run the full
`save` (with joining and validation).  Returns the new watermark and the
new store, or the FormError raised by some nested save. -/
def strip_organization_time (ctx : Ctx) (resource : ℤ) (organization : ℤ)
    (now : ℤ) (db : List Ival) : Except FormError (ℤ × List Ival) := do
  let selected := (at_date db now).filter fun o =>
    o.resource == resource && o.organization == some organization
  let db ← selected.foldlM (fun db i => do
    let r ← save ctx { i with stop := now } db
    pure r.2) db
  pure (now, db)

/-- A row of the ScheduleInterval table (models.py lines 617-643): a weekday
(Sunday = 0) and a time-of-day range in minutes. -/
structure SIval where
  day_of_week : ℤ
  start : ℤ
  stop : ℤ
  deriving Repr, DecidableEq

/-- Fragment validity: a nonempty time range. -/
def SIval.wf (f : SIval) : Prop := f.start < f.stop

instance (f : SIval) : Decidable f.wf := inferInstanceAs (Decidable (f.start < f.stop))

/-- ScheduleInterval.has_intersection (models.py lines 636-640). -/
def has_intersection (s other : SIval) : Bool :=
  s.day_of_week == other.day_of_week
    && ((decide (other.start < s.start) && decide (s.start < other.stop))
        || (decide (s.start < other.start) && decide (other.start < s.stop)))

/-- Python date(t).  A datetime `t` (minutes) lies on the day ⌊t / 1440⌋
(Euclidean division by the positive 1440 is floor division). -/
def dateOf (t : ℤ) : ℤ := t.ediv 1440

/-- The weekday index used by apply_schedule (models.py line 566):
`(apply_date.weekday() + 1) % 7`, so that Sunday = 0.  Day 0 of the model
epoch is Thursday 1970-01-01 (Python weekday 3), hence `(d + 3) % 7 + 1`
reduced mod 7. -/
def weekDayOf (d : ℤ) : ℤ := (d + 4) % 7

/-- Steps 5-6 of ResourceMembership.apply_schedule (models.py lines 553-580):
walk the days of `[start, end]`, instantiate every fragment of the day into
a concrete OrganizationReserved interval (shifting one day back when the
combined start exceeds the combined end, line 574-575), and accumulate the
candidates through the in-memory join with the default JOIN_GAP tolerance
followed by an append. -/
def buildCandidates (start stop : ℤ) (frags : List SIval)
    (resource organization : ℤ) : List Ival :=
  let days := (dateOf stop - dateOf start).toNat
  (List.range (days + 1)).foldl (fun intervals i =>
    let apply_date := dateOf (start + 1440 * (i : ℤ))
    let wd := weekDayOf apply_date
    (frags.filter fun si => si.day_of_week == wd).foldl (fun intervals si =>
      let apply_start := 1440 * apply_date + si.start
      let apply_stop := 1440 * apply_date + si.stop
      let apply_start := if apply_start > apply_stop then apply_start - 1440 else apply_start
      let interval : Ival :=
        { id := none, start := apply_start, stop := apply_stop,
          kind := Kind_OrganizationReserved, resource := resource,
          organization := some organization, manager := none, comment := none }
      let r := joinWE JOIN_GAP interval intervals
      r.2.1 ++ [r.1]) intervals) []

/-- Step 7 of ResourceMembership.apply_schedule (models.py lines 582-584):
`for i in intervals: if i.end - i.start < JOIN_GAP: intervals.remove(i)`,
with Python list-mutation-during-iteration semantics — removing the current
element makes the iterator skip the element that slides into its place. -/
def dropShort : List Ival → List Ival
  | [] => []
  | o :: rest =>
    if o.stop - o.start < JOIN_GAP then
      match rest with
      | [] => []
      | p :: rest₁ => p :: dropShort rest₁
    else o :: dropShort rest

/-- The candidate list of apply_schedule right after the drop pass of step 7
(models.py lines 552-584), before sorting and bulk insertion. -/
def applyScheduleCandidates (start stop : ℤ) (frags : List SIval)
    (resource organization : ℤ) : List Ival :=
  dropShort (buildCandidates start stop frags resource organization)

/-- The union of the spans of `qs` covers every instant of `[s, e]`
(spec 4C.3: the collection is gap-free over `[start, end]`). -/
def covers (qs : List Ival) (s e : ℤ) : Prop :=
  ∀ t : ℚ, (s : ℚ) ≤ t → t ≤ (e : ℚ) → ∃ i ∈ qs, (i.start : ℚ) ≤ t ∧ t ≤ (i.stop : ℚ)

/-- Two intervals are separated by at least `g`: the canonicity relation of
spec §3.6 (no overlap, no gap below JOIN_GAP). -/
def apart (g : ℤ) (a b : Ival) : Prop :=
  a.stop + g ≤ b.start ∨ b.stop + g ≤ a.start

instance (g : ℤ) (a b : Ival) : Decidable (apart g a b) :=
  inferInstanceAs (Decidable (a.stop + g ≤ b.start ∨ b.stop + g ≤ a.start))

/-- A stored identity class is canonical: pairwise apart by JOIN_GAP. -/
def canonical (l : List Ival) : Prop := l.Pairwise (apart JOIN_GAP)

instance (l : List Ival) : Decidable (canonical l) :=
  inferInstanceAs (Decidable (l.Pairwise (apart JOIN_GAP)))

/-- Strict overlap of a stored row `o` with the open span of `s`
(claim C10's frame condition). -/
def strictOverlap (s o : Ival) : Prop := o.start < s.stop ∧ s.start < o.stop

instance (s o : Ival) : Decidable (strictOverlap s o) :=
  inferInstanceAs (Decidable (o.start < s.stop ∧ s.start < o.stop))

/-- The selection condition of strip_organization_time (models.py lines
510): `at_date(now)` composed with the (resource, organization) filter —
note: no condition on `kind`. -/
def stripSelCond (resource organization now : ℤ) (o : Ival) : Bool :=
  (decide (o.start < now) && decide (o.stop > now))
    && (o.resource == resource && o.organization == some organization)

/-- The store with the end of every row belonging to `done` truncated to
`now`. -/
def truncMarked (now : ℤ) (done : List Ival) (db : List Ival) : List Ival :=
  db.map fun o => if o ∈ done then { o with stop := now } else o

/-- Side conditions under which every nested save performed by
strip_organization_time validates and persists without joining: rows carry
distinct primary keys, are well-formed, rows of one identity class
(resource, kind, organization, manager) lie pairwise at least JOIN_GAP
apart (the canonicity invariant of spec §3.6, the normal outcome of
save-with-join and apply_schedule; a class may hold any number of rows),
OrgReserved rows carry no manager, ManagerReserved rows carry a manager and
are covered by an OrgReserved row of the same (resource, organization),
rows of equal kind on the resource do not overlap across identities, and
the relational oracles pass.  These reflect the documented invariants of
the store (spec §3). -/
structure StripHyps (ctx : Ctx) (resource organization now : ℤ)
    (db : List Ival) : Prop where
  ids_some : ∀ o ∈ db, o.id.isSome
  ids_distinct : db.Pairwise fun a b => a.id ≠ b.id
  wf : ∀ o ∈ db, o.start < o.stop
  class_apart : ∀ a ∈ db, ∀ b ∈ db, a ≠ b → a.resource = b.resource →
    a.kind = b.kind → a.organization = b.organization → a.manager = b.manager →
    apart JOIN_GAP a b
  org_no_manager : ∀ o ∈ db, o.kind = Kind_OrganizationReserved → o.manager = none
  mgr_has_manager : ∀ o ∈ db, o.kind = Kind_ManagerReserved → o.manager.isSome
  mgr_covered : ∀ m ∈ db, m.kind = Kind_ManagerReserved → m.resource = resource →
    m.organization = some organization → m.start < now → now < m.stop →
    ∃ o ∈ db, o.kind = Kind_OrganizationReserved ∧ o.resource = resource ∧
      o.organization = some organization ∧ o.start ≤ m.start ∧ m.stop ≤ o.stop
  mgr_disjoint : ∀ m ∈ db, ∀ j ∈ db, m ≠ j → m.kind = Kind_ManagerReserved →
    j.kind = Kind_ManagerReserved → m.resource = j.resource →
    j.stop ≤ m.start ∨ m.stop ≤ j.start
  org_disjoint : ∀ m ∈ db, ∀ j ∈ db, m ≠ j → m.kind = Kind_OrganizationReserved →
    j.kind = Kind_OrganizationReserved → m.resource = j.resource →
    j.stop ≤ m.start ∨ m.stop ≤ j.start
  ctx_mgr : ∀ a b, ctx.managerInOrg a b = true
  ctx_res : ∀ a b, ctx.resourceInOrg a b = true
  ctx_sched : ∀ i, ctx.scheduleConflict i = false

/-! ### Helper lemmas about the in-memory join -/

/-- When a branch of the join ladder fires, the updated `self` is exactly
the hull of `self` and the removed member (for well-formed intervals). -/
theorem joinClassify_some_hull {tol : ℤ} {s o s₁ : Ival}
    (hs : s.start < s.stop) (ho : o.start < o.stop)
    (h : joinClassify tol s o = some s₁) :
    s₁.start = min s.start o.start ∧ s₁.stop = max s.stop o.stop := by
  unfold joinClassify at h
  split_ifs at h with h1 h2 h3 h4 <;> injection h with h <;> subst h <;>
    constructor <;> simp only [min_def, max_def] <;> split_ifs <;> first | rfl | omega

/-- Folding min commutes with lowering the seed. -/
theorem foldMin_min (y : ℤ) : ∀ (x : ℤ) (l : List ℤ),
    foldMin (min x y) l = min y (foldMin x l) := by
  intro x l
  induction l generalizing x with
  | nil => simp [foldMin, min_comm]
  | cons a l ih =>
    simp only [foldMin, List.foldr_cons] at ih ⊢
    rw [ih]
    omega

/-- Folding max commutes with raising the seed. -/
theorem foldMax_max (y : ℤ) : ∀ (x : ℤ) (l : List ℤ),
    foldMax (max x y) l = max y (foldMax x l) := by
  intro x l
  induction l generalizing x with
  | nil => simp [foldMax, max_comm]
  | cons a l ih =>
    simp only [foldMax, List.foldr_cons] at ih ⊢
    rw [ih]
    omega

/-- The loop of the in-memory join: the original list is a permutation of
kept ++ removed, and the final bounds of `self` are the folded min/max of
its original bounds with the removed members (for well-formed input). -/
theorem joinWE_spec (tol : ℤ) : ∀ (s : Ival) (l : List Ival),
    s.start < s.stop → (∀ o ∈ l, o.start < o.stop) →
    l.Perm ((joinWE tol s l).2.1 ++ (joinWE tol s l).2.2) ∧
    (joinWE tol s l).1.start = foldMin s.start (((joinWE tol s l).2.2).map Ival.start) ∧
    (joinWE tol s l).1.stop = foldMax s.stop (((joinWE tol s l).2.2).map Ival.stop) ∧
    (joinWE tol s l).1.start < (joinWE tol s l).1.stop := by
  intro s l
  induction s, l using joinWE.induct tol with
  | case1 s =>
    intro hs _
    simp [joinWE, foldMin, foldMax, hs]
  | case2 s o s₁ hcl =>
    intro hs hl
    have ho := hl o (by simp)
    obtain ⟨h1, h2⟩ := joinClassify_some_hull hs ho hcl
    simp only [joinWE, hcl, foldMin, foldMax, List.map_cons, List.map_nil,
      List.foldr_cons, List.foldr_nil]
    refine ⟨by simp, by rw [h1, min_comm], by rw [h2, max_comm], ?_⟩
    rw [h1, h2]
    exact lt_of_le_of_lt (min_le_left _ _) (lt_of_lt_of_le hs (le_max_left _ _))
  | case3 s o s₁ hcl p rest₁ ih =>
    intro hs hl
    have ho := hl o (by simp)
    obtain ⟨h1, h2⟩ := joinClassify_some_hull hs ho hcl
    have hs₁ : s₁.start < s₁.stop := by
      rw [h1, h2]
      exact lt_of_le_of_lt (min_le_left _ _) (lt_of_lt_of_le hs (le_max_left _ _))
    obtain ⟨ihp, ihmin, ihmax, ihwf⟩ := ih hs₁ (fun x hx => hl x (by simp [hx]))
    simp only [joinWE, hcl]
    refine ⟨?_, ?_, ?_, ihwf⟩
    · rw [List.cons_append]
      exact (List.Perm.swap p o rest₁).trans (((ihp.cons o).cons p).trans
        (List.perm_middle.symm.cons p))
    · rw [ihmin, h1, foldMin_min]
      simp only [foldMin, List.map_cons, List.foldr_cons]
    · rw [ihmax, h2, foldMax_max]
      simp only [foldMax, List.map_cons, List.foldr_cons]
  | case4 s o rest hcl ih =>
    intro hs hl
    obtain ⟨ihp, ihmin, ihmax, ihwf⟩ := ih hs (fun x hx => hl x (by simp [hx]))
    simp only [joinWE, hcl]
    exact ⟨ihp.cons o, ihmin, ihmax, ihwf⟩

/-- Both output lists of the join loop are sublists of the input list. -/
theorem joinWE_sublists (tol : ℤ) : ∀ (s : Ival) (l : List Ival),
    (joinWE tol s l).2.1.Sublist l ∧ (joinWE tol s l).2.2.Sublist l := by
  intro s l
  induction s, l using joinWE.induct tol with
  | case1 s => simp [joinWE]
  | case2 s o s₁ hcl => simp [joinWE, hcl]
  | case3 s o s₁ hcl p rest₁ ih =>
    simp only [joinWE, hcl]
    exact ⟨(ih.1.cons₂ p).cons o, (ih.2.cons p).cons₂ o⟩
  | case4 s o rest hcl ih =>
    simp only [joinWE, hcl]
    exact ⟨ih.1.cons₂ o, ih.2.cons o⟩

/-- With a nonpositive tolerance (is_continuous joins with timedelta=0) a
firing join branch only ever widens `self` over instants that already lay
in `self` or in the removed member. -/
theorem joinClassify_span {tol : ℤ} {s o s₁ : Ival} (htol : tol ≤ 0)
    (h : joinClassify tol s o = some s₁) :
    ∀ t : ℚ, (s₁.start : ℚ) ≤ t → t ≤ (s₁.stop : ℚ) →
      ((s.start : ℚ) ≤ t ∧ t ≤ (s.stop : ℚ)) ∨ ((o.start : ℚ) ≤ t ∧ t ≤ (o.stop : ℚ)) := by
  unfold joinClassify at h
  split_ifs at h with h1 h2 h3 h4 <;> injection h with h <;> subst h <;>
    intro t ht1 ht2
  · exact Or.inl ⟨ht1, ht2⟩
  · exact Or.inr ⟨ht1, ht2⟩
  · rcases h3 with ⟨h3a, h3b⟩ | ⟨h3a, h3b⟩
    · rcases le_or_lt t (o.stop : ℚ) with hc | hc
      · exact Or.inr ⟨ht1, hc⟩
      · have : ((s.start : ℤ) : ℚ) ≤ t := le_of_lt (lt_of_le_of_lt (by exact_mod_cast h3b.le) hc)
        exact Or.inl ⟨this, ht2⟩
    · exact absurd (lt_of_lt_of_le h3b htol) (by omega)
  · rcases h4 with ⟨h4a, h4b⟩ | ⟨h4a, h4b⟩
    · rcases le_or_lt ((o.start : ℤ) : ℚ) t with hc | hc
      · exact Or.inr ⟨hc, ht2⟩
      · have : t ≤ ((s.stop : ℤ) : ℚ) := le_of_lt (lt_of_lt_of_le hc (by exact_mod_cast h4a.le))
        exact Or.inl ⟨ht1, this⟩
    · exact absurd (lt_of_lt_of_le h4b htol) (by omega)

/-- With a nonpositive tolerance, every instant of the final span of `self`
after the join loop lay in the original span of `self` or in the span of
some removed member. -/
theorem joinWE_span (tol : ℤ) (htol : tol ≤ 0) : ∀ (s : Ival) (l : List Ival),
    ∀ t : ℚ, ((joinWE tol s l).1.start : ℚ) ≤ t → t ≤ ((joinWE tol s l).1.stop : ℚ) →
      ((s.start : ℚ) ≤ t ∧ t ≤ (s.stop : ℚ)) ∨
        ∃ o ∈ (joinWE tol s l).2.2, (o.start : ℚ) ≤ t ∧ t ≤ (o.stop : ℚ) := by
  intro s l
  induction s, l using joinWE.induct tol with
  | case1 s =>
    intro t ht1 ht2
    exact Or.inl ⟨ht1, ht2⟩
  | case2 s o s₁ hcl =>
    intro t ht1 ht2
    simp only [joinWE, hcl] at ht1 ht2
    rcases joinClassify_span htol hcl t ht1 ht2 with hin | hin
    · exact Or.inl hin
    · exact Or.inr ⟨o, by simp [joinWE, hcl], hin⟩
  | case3 s o s₁ hcl p rest₁ ih =>
    intro t ht1 ht2
    simp only [joinWE, hcl] at ht1 ht2 ⊢
    rcases ih t ht1 ht2 with hin | ⟨x, hx, hin⟩
    · rcases joinClassify_span htol hcl t hin.1 hin.2 with hin2 | hin2
      · exact Or.inl hin2
      · exact Or.inr ⟨o, by simp, hin2⟩
    · exact Or.inr ⟨x, by simp [hx], hin⟩
  | case4 s o rest hcl ih =>
    intro t ht1 ht2
    simp only [joinWE, hcl] at ht1 ht2 ⊢
    rcases ih t ht1 ht2 with hin | ⟨x, hx, hin⟩
    · exact Or.inl hin
    · exact Or.inr ⟨x, hx, hin⟩

/-- Invariant of the is_continuous loop: every instant lying in some member
of the accumulator is covered by a member of the already-processed inputs
(or of the seed accumulator). -/
theorem continuityAcc_foldl_covered : ∀ (qs acc : List Ival) (m : Ival),
    m ∈ qs.foldl (fun acc i =>
      let r := join_with_existing i acc 0
      r.2.1 ++ [r.1]) acc →
    ∀ t : ℚ, (m.start : ℚ) ≤ t → t ≤ (m.stop : ℚ) →
      (∃ a ∈ acc, (a.start : ℚ) ≤ t ∧ t ≤ (a.stop : ℚ)) ∨
        (∃ i ∈ qs, (i.start : ℚ) ≤ t ∧ t ≤ (i.stop : ℚ)) := by
  intro qs
  induction qs with
  | nil =>
    intro acc m hm t h1 h2
    exact Or.inl ⟨m, hm, h1, h2⟩
  | cons i qs ih =>
    intro acc m hm t h1 h2
    simp only [List.foldl_cons] at hm
    rcases ih _ m hm t h1 h2 with ⟨a, ha, hsp⟩ | ⟨x, hx, hsp⟩
    · simp only [join_with_existing, List.mem_append, List.mem_singleton] at ha
      rcases ha with ha | rfl
      · have : a ∈ acc := (joinWE_sublists 0 i acc).1.subset ha
        exact Or.inl ⟨a, this, hsp⟩
      · rcases joinWE_span 0 le_rfl i acc t hsp.1 hsp.2 with hin | ⟨o, ho, hin⟩
        · exact Or.inr ⟨i, by simp, hin⟩
        · exact Or.inl ⟨o, (joinWE_sublists 0 i acc).2.subset ho, hin⟩
    · exact Or.inr ⟨x, by simp [hx], hsp⟩

/-- Every instant lying in a member of the final accumulator of
is_continuous is covered by some member of the input collection. -/
theorem continuityAcc_covered (qs : List Ival) (m : Ival) (hm : m ∈ continuityAcc qs) :
    ∀ t : ℚ, (m.start : ℚ) ≤ t → t ≤ (m.stop : ℚ) →
      ∃ i ∈ qs, (i.start : ℚ) ≤ t ∧ t ≤ (i.stop : ℚ) := by
  intro t h1 h2
  rcases continuityAcc_foldl_covered qs [] m hm t h1 h2 with ⟨a, ha, _⟩ | h
  · simp at ha
  · exact h

/-! ### Claim C1 -/

/-- C1 (amended): `is_continuous(qs, start, end)` returns true if and only
if the accumulator built by joining each member with tol=0 ends as a single
interval A[0] with A[0].start ≤ start and A[0].end ≥ end, and whenever it
returns true the union of the members' spans covers `[start, end]` without
gap.  (The converse — coverage implying a true result — fails, e.g. for two
touching intervals.) -/
theorem is_continuous_spec (qs : List Ival) (start stop : ℤ) :
    (is_continuous qs start stop = true ↔
      ∃ a, continuityAcc qs = [a] ∧ a.start ≤ start ∧ a.stop ≥ stop) ∧
    (is_continuous qs start stop = true → covers qs start stop) := by
  have hiff : is_continuous qs start stop = true ↔
      ∃ a, continuityAcc qs = [a] ∧ a.start ≤ start ∧ a.stop ≥ stop := by
    unfold is_continuous
    rcases h : continuityAcc qs with _ | ⟨a, _ | ⟨b, l⟩⟩ <;> simp
  refine ⟨hiff, fun h => ?_⟩
  obtain ⟨a, ha, has, hae⟩ := hiff.mp h
  intro t ht1 ht2
  refine continuityAcc_covered qs a (by simp [ha]) t ?_ ?_
  · exact le_trans (by exact_mod_cast has) ht1
  · exact le_trans ht2 (by exact_mod_cast hae)

/-- C1 witness: the single interval [0,3] is continuous over [1,2], and by
the theorem its union covers [1,2]. -/
theorem is_continuous_spec_witness :
    covers [{ start := 0, stop := 3, resource := 1 }] 1 2 :=
  (is_continuous_spec [{ start := 0, stop := 3, resource := 1 }] 1 2).2 (by decide)

/-- C1 counterexample: the two touching intervals [0,1] and [1,2] cover
[0,2] without gap, yet is_continuous([..], 0, 2) returns false — refuting
the claimed equivalence between a true result and gap-free coverage. -/
theorem is_continuous_cover_counterexample :
    is_continuous [{ start := 0, stop := 1, resource := 1 },
                   { start := 1, stop := 2, resource := 1 }] 0 2 = false ∧
    covers [{ start := 0, stop := 1, resource := 1 },
            { start := 1, stop := 2, resource := 1 }] 0 2 := by
  constructor
  · decide
  · intro t ht1 ht2
    rcases le_or_lt t 1 with hc | hc
    · refine ⟨{ start := 0, stop := 1, resource := 1 }, by simp, ?_, ?_⟩ <;>
        push_cast at ht1 ⊢ <;> linarith
    · refine ⟨{ start := 1, stop := 2, resource := 1 }, by simp, ?_, ?_⟩ <;>
        push_cast at ht2 ⊢ <;> linarith

/-! ### Claim C2 -/

/-- C2 (amended): after `join_into(self, W, tol)` (in-memory
join_with_existing) the final working set is the original W minus a
sub-multiset `removed`; the `changed` result is true exactly when some
member was removed; and self's final `[start, end]` is the smallest
interval covering self's original span together with every removed member
(its start is the minimum, and its end the maximum, over the original
bounds and the removed members' bounds).  The original claim that *every*
member of W overlapping or touching self is removed fails: removing a
member makes the loop skip the member that slides into its position. -/
theorem join_with_existing_hull (tol : ℤ) (s : Ival) (W : List Ival)
    (hs : s.wf) (hW : ∀ o ∈ W, o.wf) :
    ∃ removed : List Ival,
      W.Perm ((join_with_existing s W tol).2.1 ++ removed) ∧
      ((join_with_existing s W tol).2.2 = true ↔ removed ≠ []) ∧
      (join_with_existing s W tol).1.start = foldMin s.start (removed.map Ival.start) ∧
      (join_with_existing s W tol).1.stop = foldMax s.stop (removed.map Ival.stop) := by
  obtain ⟨hperm, hmin, hmax, _⟩ := joinWE_spec tol s W hs hW
  refine ⟨(joinWE tol s W).2.2, hperm, ?_, hmin, hmax⟩
  simp [join_with_existing, List.isEmpty_iff]

/-- C2 witness: the hull theorem applied to self = [1,4] and the working
set [[5,6]] (all well-formed). -/
theorem join_with_existing_hull_witness :
    ∃ removed : List Ival,
      [({ start := 5, stop := 6, resource := 1 } : Ival)].Perm
        ((join_with_existing { start := 1, stop := 4, resource := 1 }
          [{ start := 5, stop := 6, resource := 1 }] 0).2.1 ++ removed) ∧
      ((join_with_existing { start := 1, stop := 4, resource := 1 }
          [{ start := 5, stop := 6, resource := 1 }] 0).2.2 = true ↔ removed ≠ []) ∧
      (join_with_existing { start := 1, stop := 4, resource := 1 }
          [{ start := 5, stop := 6, resource := 1 }] 0).1.start =
        foldMin 1 (removed.map Ival.start) ∧
      (join_with_existing { start := 1, stop := 4, resource := 1 }
          [{ start := 5, stop := 6, resource := 1 }] 0).1.stop =
        foldMax 4 (removed.map Ival.stop) :=
  join_with_existing_hull 0 { start := 1, stop := 4, resource := 1 }
    [{ start := 5, stop := 6, resource := 1 }] (by decide) (by decide)

/-- C2 counterexample: joining self = [1,4] into W = [[0,2],[3,5]] with
tol = 0 removes [0,2] but then skips [3,5], which strictly overlaps self
yet stays in W — refuting the claim that every member of the original W
overlapping self is removed. -/
theorem join_skips_overlapping_member :
    (join_with_existing { start := 1, stop := 4, resource := 1 }
      [{ start := 0, stop := 2, resource := 1 },
       { start := 3, stop := 5, resource := 1 }] 0).2.1 =
      [{ start := 3, stop := 5, resource := 1 }] ∧
    strictOverlap { start := 1, stop := 4, resource := 1 }
      { start := 3, stop := 5, resource := 1 } := by decide

/-! ### Claim C5 -/

/-- C5 (amended): for well-formed fragments, ScheduleInterval.has_intersection
returns true iff the fragments share a day_of_week and their time ranges
strictly overlap AND their start times differ
(max(f.start, g.start) < min(f.end, g.end) together with f.start ≠ g.start).
Two overlapping fragments with equal start times do NOT intersect under the
implemented test. -/
theorem has_intersection_spec (f g : SIval) (hf : f.wf) (hg : g.wf) :
    has_intersection f g = true ↔
      (f.day_of_week = g.day_of_week ∧ max f.start g.start < min f.stop g.stop
        ∧ f.start ≠ g.start) := by
  have hf' : f.start < f.stop := hf
  have hg' : g.start < g.stop := hg
  simp only [has_intersection, Bool.and_eq_true, Bool.or_eq_true, beq_iff_eq,
    decide_eq_true_eq, max_lt_iff, lt_min_iff]
  constructor
  · rintro ⟨hd, h⟩
    refine ⟨hd, ?_, ?_⟩ <;> omega
  · rintro ⟨hd, h, hne⟩
    exact ⟨hd, by omega⟩

/-- C5 witness: the amended characterisation at Monday fragments
09:00-10:00 and 09:10-10:10 (all times in minutes). -/
theorem has_intersection_spec_witness :
    has_intersection ⟨1, 540, 600⟩ ⟨1, 550, 610⟩ = true ↔
      ((1 : ℤ) = 1 ∧ max (540 : ℤ) 550 < min 600 610 ∧ (540 : ℤ) ≠ 550) :=
  has_intersection_spec ⟨1, 540, 600⟩ ⟨1, 550, 610⟩ (by decide) (by decide)

/-- C5 counterexample: two well-formed fragments on the same day with equal
start times and overlapping ranges (Mon 09:00-10:00 and Mon 09:00-09:30)
satisfy max(start) < min(end), yet has_intersection returns false. -/
theorem has_intersection_equal_starts_counterexample :
    has_intersection ⟨1, 540, 600⟩ ⟨1, 540, 570⟩ = false ∧
    (⟨1, 540, 600⟩ : SIval).day_of_week = (⟨1, 540, 570⟩ : SIval).day_of_week ∧
    max (⟨1, 540, 600⟩ : SIval).start (⟨1, 540, 570⟩ : SIval).start <
      min (⟨1, 540, 600⟩ : SIval).stop (⟨1, 540, 570⟩ : SIval).stop ∧
    (⟨1, 540, 600⟩ : SIval).wf ∧ (⟨1, 540, 570⟩ : SIval).wf := by decide

/-! ### Claim C9 -/

/-- C9: for a normalized query window with start ≤ end (a date start is
local midnight, a date end with include_end_date is first advanced one
day), `between` returns exactly the stored well-formed intervals I with
I.start < end and I.end > start; boundary intervals with I.start = end or
I.end = start are excluded. -/
theorem between_half_open (db : List Ival) (start stop : DateOrDatetime)
    (incl : Bool) (i : Ival) (hi : i.wf)
    (hse : betweenStart start ≤ betweenStop incl stop) :
    i ∈ between db start stop incl ↔
      i ∈ db ∧ i.start < betweenStop incl stop ∧ i.stop > betweenStart start := by
  have hi' : i.start < i.stop := hi
  unfold between
  simp only [List.mem_filter, betweenCond, decide_eq_true_eq]
  refine and_congr_right fun _ => ?_
  omega

/-- C9 witness: the row [100, 200] against the date query
(1970-01-01, 1970-01-01) with include_end_date (window [0, 1440]). -/
theorem between_half_open_witness :
    ({ id := some 1, start := 100, stop := 200, resource := 1 } : Ival) ∈
        between [{ id := some 1, start := 100, stop := 200, resource := 1 }]
          (.date 0) (.date 0) true ↔
      ({ id := some 1, start := 100, stop := 200, resource := 1 } : Ival) ∈
          [({ id := some 1, start := 100, stop := 200, resource := 1 } : Ival)] ∧
        (100 : ℤ) < betweenStop true (.date 0) ∧ (200 : ℤ) > betweenStart (.date 0) :=
  between_half_open [{ id := some 1, start := 100, stop := 200, resource := 1 }]
    (.date 0) (.date 0) true { id := some 1, start := 100, stop := 200, resource := 1 }
    (by decide) (by decide)

/-! ### Claim C10 -/

/-- C10: substract_from_existing modifies only processed rows that strictly
overlap self's open span: a well-formed row that is disjoint from self or
shares only an endpoint with [self.start, self.end] is replaced by itself
(kept with exact bounds, neither deleted nor split) and fires no branch,
and when no processed row strictly overlaps self the operation returns the
store unchanged with changed = false. -/
theorem substract_frame (s : Ival) (db : List Ival) (T : Ival → Bool)
    (hs : s.wf) (hdb : ∀ o ∈ db, o.wf) :
    (∀ o ∈ db, ¬strictOverlap s o →
      substractPieces s o = [o] ∧ substractHits s o = false) ∧
    ((∀ o ∈ db, T o = true → ¬strictOverlap s o) →
      substract_from_existing_db s db T = (db, false)) := by
  have hs' : s.start < s.stop := hs
  have key : ∀ o ∈ db, ¬strictOverlap s o →
      substractPieces s o = [o] ∧ substractHits s o = false := by
    intro o ho hov
    have ho' : o.start < o.stop := hdb o ho
    rw [strictOverlap, not_and_or, not_lt, not_lt] at hov
    constructor
    · unfold substractPieces
      split_ifs with h1 h2 h3 h4 <;> first | rfl | omega
    · simp only [substractHits, decide_eq_false_iff_not]
      omega
  refine ⟨key, fun hall => ?_⟩
  unfold substract_from_existing_db
  refine Prod.ext ?_ ?_
  · show db.flatMap (fun o => if T o then substractPieces s o else [o]) = db
    induction db with
    | nil => rfl
    | cons o db ih =>
      have hstep : (if T o then substractPieces s o else [o]) = [o] := by
        by_cases hT : T o = true
        · rw [if_pos hT, (key o (by simp) (hall o (by simp) hT)).1]
        · rw [if_neg (by simpa using hT)]
      rw [List.flatMap_cons, hstep,
        ih (fun x hx => hdb x (by simp [hx])) (fun x hx => key x (by simp [hx]))
           (fun x hx hT => hall x (by simp [hx]) hT)]
      rfl
  · show (db.filter T).any (substractHits s) = false
    simp only [List.any_eq_false, List.mem_filter]
    rintro o ⟨ho, hT⟩
    rw [(key o ho (hall o ho hT)).2]
    simp

/-- C10 witness: self = [10, 20]; the store holds a touching row [0, 10]
and a disjoint row [30, 40]; nothing changes. -/
theorem substract_frame_witness :
    (∀ o ∈ [({ id := some 1, start := 0, stop := 10, resource := 1 } : Ival),
            { id := some 2, start := 30, stop := 40, resource := 1 }],
      ¬strictOverlap { start := 10, stop := 20, resource := 1 } o →
      substractPieces { start := 10, stop := 20, resource := 1 } o = [o] ∧
      substractHits { start := 10, stop := 20, resource := 1 } o = false) ∧
    ((∀ o ∈ [({ id := some 1, start := 0, stop := 10, resource := 1 } : Ival),
             { id := some 2, start := 30, stop := 40, resource := 1 }],
        substractDefaultT { start := 10, stop := 20, resource := 1 } o = true →
        ¬strictOverlap { start := 10, stop := 20, resource := 1 } o) →
      substract_from_existing_db { start := 10, stop := 20, resource := 1 }
        [{ id := some 1, start := 0, stop := 10, resource := 1 },
         { id := some 2, start := 30, stop := 40, resource := 1 }]
        (substractDefaultT { start := 10, stop := 20, resource := 1 }) =
        ([{ id := some 1, start := 0, stop := 10, resource := 1 },
          { id := some 2, start := 30, stop := 40, resource := 1 }], false)) :=
  substract_frame { start := 10, stop := 20, resource := 1 }
    [{ id := some 1, start := 0, stop := 10, resource := 1 },
     { id := some 2, start := 30, stop := 40, resource := 1 }]
    (substractDefaultT { start := 10, stop := 20, resource := 1 })
    (by decide) (by decide)

/-! ### Claim C4 -/

/-- C4: when a processed row O strictly contains self
(O.start < self.start and O.end > self.end), substract_from_existing
replaces O by the left piece [O.start, self.start] (O with its end mutated)
and a freshly created right piece [self.end, O.end] that inherits O's full
identity: its kind, resource, manager, comment and in particular its
organization equal O's. -/
theorem substract_split_inherits_identity (s : Ival) (db : List Ival)
    (T : Ival → Bool) (o : Ival) (ho : o ∈ db) (hT : T o = true)
    (h1 : o.start < s.start) (h2 : s.stop < o.stop) :
    substractPieces s o =
      [{ o with stop := s.start },
       { id := none, start := s.stop, stop := o.stop, kind := o.kind,
         resource := o.resource, organization := o.organization,
         manager := o.manager, comment := o.comment }] ∧
    { o with stop := s.start } ∈ (substract_from_existing_db s db T).1 ∧
    { id := none, start := s.stop, stop := o.stop, kind := o.kind,
      resource := o.resource, organization := o.organization,
      manager := o.manager, comment := o.comment } ∈
      (substract_from_existing_db s db T).1 := by
  have hp : substractPieces s o =
      [{ o with stop := s.start },
       { id := none, start := s.stop, stop := o.stop, kind := o.kind,
         resource := o.resource, organization := o.organization,
         manager := o.manager, comment := o.comment }] := by
    unfold substractPieces
    rw [if_pos ⟨h1, h2⟩]
  refine ⟨hp, ?_, ?_⟩ <;>
    exact List.mem_flatMap.mpr ⟨o, ho, by rw [if_pos hT, hp]; simp⟩

/-- C4 witness: subtracting [50, 52] from the strictly containing stored
Unavailable row [0, 100] that carries organization 7, manager 8 and a
comment. -/
theorem substract_split_inherits_identity_witness :
    substractPieces
        { start := 50, stop := 52, kind := Kind_Unavailable, resource := 1,
          organization := some 7, manager := some 8 }
        { id := some 1, start := 0, stop := 100, kind := Kind_Unavailable, resource := 1,
          organization := some 7, manager := some 8, comment := some "c" } =
      [{ id := some 1, start := 0, stop := 50, kind := Kind_Unavailable, resource := 1,
         organization := some 7, manager := some 8, comment := some "c" },
       { id := none, start := 52, stop := 100, kind := Kind_Unavailable, resource := 1,
         organization := some 7, manager := some 8, comment := some "c" }] ∧
    ({ id := some 1, start := 0, stop := 50, kind := Kind_Unavailable, resource := 1,
       organization := some 7, manager := some 8, comment := some "c" } : Ival) ∈
      (substract_from_existing_db
        { start := 50, stop := 52, kind := Kind_Unavailable, resource := 1,
          organization := some 7, manager := some 8 }
        [{ id := some 1, start := 0, stop := 100, kind := Kind_Unavailable, resource := 1,
           organization := some 7, manager := some 8, comment := some "c" }]
        (substractDefaultT
          { start := 50, stop := 52, kind := Kind_Unavailable, resource := 1,
            organization := some 7, manager := some 8 })).1 ∧
    ({ id := none, start := 52, stop := 100, kind := Kind_Unavailable, resource := 1,
       organization := some 7, manager := some 8, comment := some "c" } : Ival) ∈
      (substract_from_existing_db
        { start := 50, stop := 52, kind := Kind_Unavailable, resource := 1,
          organization := some 7, manager := some 8 }
        [{ id := some 1, start := 0, stop := 100, kind := Kind_Unavailable, resource := 1,
           organization := some 7, manager := some 8, comment := some "c" }]
        (substractDefaultT
          { start := 50, stop := 52, kind := Kind_Unavailable, resource := 1,
            organization := some 7, manager := some 8 })).1 := by
  have h := substract_split_inherits_identity
    { start := 50, stop := 52, kind := Kind_Unavailable, resource := 1,
      organization := some 7, manager := some 8 }
    [{ id := some 1, start := 0, stop := 100, kind := Kind_Unavailable, resource := 1,
       organization := some 7, manager := some 8, comment := some "c" }]
    (substractDefaultT
      { start := 50, stop := 52, kind := Kind_Unavailable, resource := 1,
        organization := some 7, manager := some 8 })
    { id := some 1, start := 0, stop := 100, kind := Kind_Unavailable, resource := 1,
      organization := some 7, manager := some 8, comment := some "c" }
    (by decide) (by decide) (by decide) (by decide)
  exact h

/-! ### Claim C6 -/

/-- C6 (amended): saving a ManagerReserved interval whose earlier
validations pass (well-formed span, organization given, manager given and
in the organization, resource in the organization) raises the FormError
with the message exactly as written in the source — "This period is't fall
within organization time." — whenever the OrgReserved rows of
(resource, organization) restricted to the query window are not continuous
over [start, end]; the store is left unchanged. -/
theorem save_manager_requires_org_continuity (ctx : Ctx) (s : Ival)
    (db : List Ival)
    (hk : s.kind = Kind_ManagerReserved)
    (hwf : s.start < s.stop)
    (horg : s.organization.isSome = true)
    (hmgr : s.manager.isSome = true)
    (hmio : ctx.managerInOrg (s.manager.getD 0) s.organization = true)
    (hrio : ctx.resourceInOrg s.resource s.organization = true)
    (hcont : is_continuous (orgWindow s db) s.start s.stop = false) :
    save ctx s db = .error ⟨"", msgNotFallOrgTime⟩ ∧ commitSave ctx s db = db := by
  have hsave : save ctx s db = .error ⟨"", msgNotFallOrgTime⟩ := by
    unfold save
    rw [if_neg (by omega)]
    rw [if_neg (by rintro ⟨h, -⟩; rw [Option.isNone_iff_eq_none] at h; simp [h] at horg)]
    rw [if_neg (by rintro ⟨-, -, h⟩; exact h hmio)]
    rw [if_neg (by rintro ⟨-, h⟩; exact h hrio)]
    rw [if_pos hk]
    rw [if_neg (by rw [Option.isNone_iff_eq_none]; intro h; simp [h] at hmgr)]
    rw [if_pos (by simp [hcont])]
  exact ⟨hsave, by unfold commitSave; rw [hsave]⟩

/-- C6 witness: scenario S3 — OrgReserved [Mon 09:00, Mon 12:00] and
[Mon 13:00, Mon 17:00] stored (times in minutes), saving ManagerReserved
[Mon 11:00, Mon 14:00] is rejected with the organization-time error and the
store is unchanged. -/
theorem save_manager_requires_org_continuity_witness :
    save ⟨fun _ _ => true, fun _ _ => true, fun _ => false⟩
        { start := 660, stop := 840, kind := Kind_ManagerReserved, resource := 1,
          organization := some 1, manager := some 3 }
        [{ id := some 1, start := 540, stop := 720, kind := Kind_OrganizationReserved,
           resource := 1, organization := some 1 },
         { id := some 2, start := 780, stop := 1020, kind := Kind_OrganizationReserved,
           resource := 1, organization := some 1 }] =
      .error ⟨"", msgNotFallOrgTime⟩ ∧
    commitSave ⟨fun _ _ => true, fun _ _ => true, fun _ => false⟩
        { start := 660, stop := 840, kind := Kind_ManagerReserved, resource := 1,
          organization := some 1, manager := some 3 }
        [{ id := some 1, start := 540, stop := 720, kind := Kind_OrganizationReserved,
           resource := 1, organization := some 1 },
         { id := some 2, start := 780, stop := 1020, kind := Kind_OrganizationReserved,
           resource := 1, organization := some 1 }] =
      [{ id := some 1, start := 540, stop := 720, kind := Kind_OrganizationReserved,
         resource := 1, organization := some 1 },
       { id := some 2, start := 780, stop := 1020, kind := Kind_OrganizationReserved,
         resource := 1, organization := some 1 }] :=
  save_manager_requires_org_continuity
    ⟨fun _ _ => true, fun _ _ => true, fun _ => false⟩
    { start := 660, stop := 840, kind := Kind_ManagerReserved, resource := 1,
      organization := some 1, manager := some 3 }
    [{ id := some 1, start := 540, stop := 720, kind := Kind_OrganizationReserved,
       resource := 1, organization := some 1 },
     { id := some 2, start := 780, stop := 1020, kind := Kind_OrganizationReserved,
       resource := 1, organization := some 1 }]
    rfl (by decide) rfl rfl rfl rfl (by decide)

/-- C6 counterexample: in scenario S3 the raised message is the source's
literal "This period is't fall within organization time.", which differs
from the message quoted by the claim ("This period isn't fall within
organization time."): the claim's quoted error text does not occur. -/
theorem org_time_error_message_counterexample :
    save ⟨fun _ _ => true, fun _ _ => true, fun _ => false⟩
        { start := 660, stop := 840, kind := Kind_ManagerReserved, resource := 1,
          organization := some 1, manager := some 3 }
        [{ id := some 1, start := 540, stop := 720, kind := Kind_OrganizationReserved,
           resource := 1, organization := some 1 },
         { id := some 2, start := 780, stop := 1020, kind := Kind_OrganizationReserved,
           resource := 1, organization := some 1 }] =
      .error ⟨"", "This period is\x27t fall within organization time."⟩ ∧
    msgNotFallOrgTime ≠ "This period isn\x27t fall within organization time." := by
  constructor
  · rfl
  · decide

/-! ### Claim C7 -/

/-- The drop pass removes every interval shorter than JOIN_GAP provided no
two consecutive list entries are both short; a short entry sliding into the
position of a removed one is skipped and survives. -/
theorem dropShort_no_short : ∀ l : List Ival,
    l.Chain' (fun a b => ¬(a.stop - a.start < JOIN_GAP ∧ b.stop - b.start < JOIN_GAP)) →
    ∀ i ∈ dropShort l, ¬(i.stop - i.start < JOIN_GAP) := by
  intro l
  induction l using dropShort.induct with
  | case1 => intro _ i hi; simp [dropShort] at hi
  | case2 o hshort =>
    intro _ i hi
    simp [dropShort, if_pos hshort] at hi
  | case3 o hshort p rest₁ ih =>
    intro hchain i hi
    simp only [dropShort, if_pos hshort, List.mem_cons] at hi
    rcases hi with rfl | hi
    · exact fun hp => (List.chain'_cons.mp hchain).1 ⟨hshort, hp⟩
    · exact ih (List.Chain'.tail (List.chain'_cons.mp hchain).2) i hi
  | case4 o rest hshort ih =>
    intro hchain i hi
    have hd : dropShort (o :: rest) = o :: dropShort rest := by
      cases rest <;> simp [dropShort, hshort]
    rw [hd, List.mem_cons] at hi
    rcases hi with rfl | hi
    · exact hshort
    · exact ih hchain.tail i hi

/-- C7 (amended): after the drop pass of step 7 of apply_schedule the
candidate list contains no interval shorter than JOIN_GAP *provided* the
generated candidate list has no two consecutive sub-JOIN_GAP entries; a
weekly template generating consecutive short candidates defeats the pass,
because removing a short entry makes the loop skip the next one. -/
theorem applyScheduleCandidates_no_short (start stop : ℤ) (frags : List SIval)
    (resource organization : ℤ)
    (h : (buildCandidates start stop frags resource organization).Chain'
      (fun a b => ¬(a.stop - a.start < JOIN_GAP ∧ b.stop - b.start < JOIN_GAP))) :
    ∀ i ∈ applyScheduleCandidates start stop frags resource organization,
      ¬(i.stop - i.start < JOIN_GAP) :=
  dropShort_no_short _ h

/-- C7 witness: a template with a single one-hour Thursday fragment over a
two-day range keeps its candidate — which is not sub-JOIN_GAP — after the
drop pass. -/
theorem applyScheduleCandidates_no_short_witness :
    ¬(({ id := none, start := 540, stop := 600, kind := Kind_OrganizationReserved,
         resource := 1, organization := some 1, manager := none,
         comment := none } : Ival).stop -
      ({ id := none, start := 540, stop := 600, kind := Kind_OrganizationReserved,
         resource := 1, organization := some 1, manager := none,
         comment := none } : Ival).start < JOIN_GAP) :=
  applyScheduleCandidates_no_short 0 2040 [⟨4, 540, 600⟩] 1 1 (by
    rw [show buildCandidates 0 2040 [⟨4, 540, 600⟩] 1 1 =
      [{ id := none, start := 540, stop := 600, kind := Kind_OrganizationReserved,
         resource := 1, organization := some 1, manager := none, comment := none }] from by decide]
    exact List.chain'_singleton _)
    { id := none, start := 540, stop := 600, kind := Kind_OrganizationReserved,
      resource := 1, organization := some 1, manager := none, comment := none }
    (by decide)

/-- C7 counterexample: the template (Thursday 09:00-09:02, Friday
09:00-09:02) over the two days [Thu 1970-01-01 00:00, Fri 1970-01-02
10:00] generates two consecutive sub-JOIN_GAP candidates; the drop pass
removes the first and skips the second, which survives although its
duration (2 minutes) is below JOIN_GAP = 5 minutes. -/
theorem apply_schedule_short_survives :
    applyScheduleCandidates 0 2040 [⟨4, 540, 542⟩, ⟨5, 540, 542⟩] 1 1 =
      [{ id := none, start := 1980, stop := 1982, kind := Kind_OrganizationReserved,
         resource := 1, organization := some 1, manager := none, comment := none }] ∧
    ∃ i ∈ applyScheduleCandidates 0 2040 [⟨4, 540, 542⟩, ⟨5, 540, 542⟩] 1 1,
      i.stop - i.start < JOIN_GAP := by decide

/-! ### Claim C3 -/

/-- The folded minimum is bounded by its seed. -/
theorem foldMin_le_init (x : ℤ) (l : List ℤ) : foldMin x l ≤ x := by
  induction l with
  | nil => simp [foldMin]
  | cons a l ih =>
    simp only [foldMin, List.foldr_cons] at ih ⊢
    omega

/-- A common lower bound of the seed and the list bounds the folded
minimum. -/
theorem le_foldMin (b x : ℤ) (l : List ℤ) (hx : b ≤ x) (hl : ∀ y ∈ l, b ≤ y) :
    b ≤ foldMin x l := by
  induction l with
  | nil => simpa [foldMin] using hx
  | cons a l ih =>
    have ha := hl a (by simp)
    have := ih (fun y hy => hl y (by simp [hy]))
    simp only [foldMin, List.foldr_cons] at this ⊢
    omega

/-- The folded maximum is bounded below by its seed. -/
theorem init_le_foldMax (x : ℤ) (l : List ℤ) : x ≤ foldMax x l := by
  induction l with
  | nil => simp [foldMax]
  | cons a l ih =>
    simp only [foldMax, List.foldr_cons] at ih ⊢
    omega

/-- A common upper bound of the seed and the list bounds the folded
maximum. -/
theorem foldMax_le (b x : ℤ) (l : List ℤ) (hx : x ≤ b) (hl : ∀ y ∈ l, y ≤ b) :
    foldMax x l ≤ b := by
  induction l with
  | nil => simpa [foldMax] using hx
  | cons a l ih =>
    have ha := hl a (by simp)
    have := ih (fun y hy => hl y (by simp [hy]))
    simp only [foldMax, List.foldr_cons] at this ⊢
    omega

/-- The apart relation is symmetric. -/
theorem apart_symm {g : ℤ} {a b : Ival} (h : apart g a b) : apart g b a :=
  h.elim Or.inr Or.inl

/-- A well-formed row excluded from the persistent-join window
`between(self.start - JOIN_GAP, self.end + JOIN_GAP)` stays apart from the
widened `self` (the Min/Max hull of `self` and the window), provided it was
apart from every window member. -/
theorem apart_of_outside_window (s x : Ival) (W : List Ival)
    (hs : s.start < s.stop) (hx : x.start < x.stop)
    (hnb : betweenCond (s.start - JOIN_GAP) (s.stop + JOIN_GAP) x = false)
    (hWp : ∀ y ∈ W, (y.start < y.stop) ∧
      betweenCond (s.start - JOIN_GAP) (s.stop + JOIN_GAP) y = true ∧
      apart JOIN_GAP x y) :
    apart JOIN_GAP
      { s with start := foldMin s.start (W.map Ival.start),
               stop := foldMax s.stop (W.map Ival.stop) } x := by
  simp only [betweenCond, decide_eq_false_iff_not, not_and_or, not_or, not_and,
    not_not, ne_eq] at hnb
  have hRL : s.stop + JOIN_GAP ≤ x.start ∨ x.stop + JOIN_GAP ≤ s.start := by
    unfold JOIN_GAP at *
    omega
  rcases hRL with hR | hL
  · refine Or.inl ?_
    show foldMax s.stop (W.map Ival.stop) + JOIN_GAP ≤ x.start
    have : foldMax s.stop (W.map Ival.stop) ≤ x.start - JOIN_GAP := by
      refine foldMax_le _ _ _ (by omega) ?_
      intro v hv
      obtain ⟨y, hyW, rfl⟩ := List.mem_map.mp hv
      obtain ⟨hy1, hy2, hy3⟩ := hWp y hyW
      simp only [betweenCond, decide_eq_true_eq, ne_eq] at hy2
      unfold apart JOIN_GAP at *
      omega
    omega
  · refine Or.inr ?_
    show x.stop + JOIN_GAP ≤ foldMin s.start (W.map Ival.start)
    refine le_foldMin _ _ _ (by omega) ?_
    intro v hv
    obtain ⟨y, hyW, rfl⟩ := List.mem_map.mp hv
    obtain ⟨hy1, hy2, hy3⟩ := hWp y hyW
    simp only [betweenCond, decide_eq_true_eq, ne_eq] at hy2
    unfold apart JOIN_GAP at *
    omega

/-- Pairwise apartness gives apartness of any two distinct members. -/
theorem canonical_pairs {l : List Ival} (h : canonical l) :
    ∀ a ∈ l, ∀ b ∈ l, a ≠ b → apart JOIN_GAP a b := by
  intro a ha b hb hne
  exact List.Pairwise.forall (fun x y hxy => apart_symm hxy) h ha hb hne

set_option maxHeartbeats 1000000 in
/-- C3 (amended): the canonicity invariant — within the identity class of
the saved interval, stored intervals are pairwise non-overlapping with no
gap below JOIN_GAP — is preserved by `save` with joining for a fresh
interval: if the class rows are canonical before the save, they are
canonical after (the widened interval replaces the joined window and stays
apart from every class row left outside the window).  The invariant is NOT
preserved by subtract: splitting a stored interval around a sub-JOIN_GAP
span leaves two identity-matching pieces closer than JOIN_GAP. -/
theorem save_join_preserves_canonical (ctx : Ctx) (s : Ival) (db : List Ival)
    (hid : s.id = none) (hs : s.start < s.stop)
    (hdb : ∀ o ∈ db, o.start < o.stop)
    (hcanon : canonical (db.filter (similarCond s)))
    (r : Ival × List Ival) (hok : save ctx s db = .ok r) :
    canonical (r.2.filter (similarCond s)) := by
  have hr : r = saveCommit s db true := by
    unfold save at hok
    split_ifs at hok <;> exact (Except.ok.inj hok).symm
  subst hr
  have hss : similarCond s s = true := by
    simp [similarCond, hid]
  have hbc_of_win : ∀ x : Ival, similarCond s x = true →
      joinWindow JOIN_GAP s x = false →
      betweenCond (s.start - JOIN_GAP) (s.stop + JOIN_GAP) x = false := by
    intro x hsim hwin
    unfold joinWindow at hwin
    rw [Bool.and_eq_false_iff] at hwin
    rcases hwin with h | h
    · rw [hsim] at h
      exact absurd h (by simp)
    · exact h
  cases hemp : (db.filter (joinWindow JOIN_GAP s)).isEmpty with
  | true =>
    have hall : ∀ o ∈ db, joinWindow JOIN_GAP s o = false := by
      rw [List.isEmpty_iff] at hemp
      intro o ho
      have := List.filter_eq_nil_iff.mp hemp o ho
      simpa using this
    have hcommit : saveCommit s db true = (s, db ++ [s]) := by
      simp only [saveCommit, join_with_existing_db, hemp, if_true, persist, hid]
    rw [hcommit]
    show canonical ((db ++ [s]).filter (similarCond s))
    rw [List.filter_append, show List.filter (similarCond s) [s] = [s] from by simp [hss]]
    rw [canonical, List.pairwise_append]
    refine ⟨hcanon, List.pairwise_singleton _ _, ?_⟩
    intro x hx y hy
    rw [List.mem_singleton] at hy
    rw [hy]
    rw [List.mem_filter] at hx
    have hbc := hbc_of_win x hx.2 (hall x hx.1)
    have := apart_of_outside_window s x [] hs (hdb x hx.1) hbc (by simp)
    exact apart_symm this
  | false =>
    have hcommit : saveCommit s db true =
        ({ s with start := foldMin s.start ((db.filter (joinWindow JOIN_GAP s)).map Ival.start),
                  stop := foldMax s.stop ((db.filter (joinWindow JOIN_GAP s)).map Ival.stop) },
          db.filter (fun o => !joinWindow JOIN_GAP s o) ++
            [{ s with start := foldMin s.start ((db.filter (joinWindow JOIN_GAP s)).map Ival.start),
                      stop := foldMax s.stop ((db.filter (joinWindow JOIN_GAP s)).map Ival.stop) }]) := by
      simp only [saveCommit, join_with_existing_db, hemp, Bool.false_eq_true, if_false,
        if_true, persist, hid]
    rw [hcommit]
    show canonical ((db.filter (fun o => !joinWindow JOIN_GAP s o) ++
      [{ s with start := foldMin s.start ((db.filter (joinWindow JOIN_GAP s)).map Ival.start),
                stop := foldMax s.stop ((db.filter (joinWindow JOIN_GAP s)).map Ival.stop) }]).filter
        (similarCond s))
    rw [List.filter_append,
      show List.filter (similarCond s)
          [{ s with start := foldMin s.start ((db.filter (joinWindow JOIN_GAP s)).map Ival.start),
                    stop := foldMax s.stop ((db.filter (joinWindow JOIN_GAP s)).map Ival.stop) }] =
          [{ s with start := foldMin s.start ((db.filter (joinWindow JOIN_GAP s)).map Ival.start),
                    stop := foldMax s.stop ((db.filter (joinWindow JOIN_GAP s)).map Ival.stop) }] from
        by simp [similarCond, hid]]
    rw [canonical, List.pairwise_append]
    refine ⟨?_, List.pairwise_singleton _ _, ?_⟩
    · exact List.Pairwise.sublist (List.Sublist.filter _ (List.filter_sublist _)) hcanon
    · intro x hx y hy
      rw [List.mem_singleton] at hy
      rw [hy]
      rw [List.mem_filter] at hx
      obtain ⟨hxdb', hxsim⟩ := hx
      rw [List.mem_filter] at hxdb'
      obtain ⟨hxdb, hxnw⟩ := hxdb'
      have hwin : joinWindow JOIN_GAP s x = false := by
        simpa using hxnw
      have hbc := hbc_of_win x hxsim hwin
      have hWp : ∀ y ∈ db.filter (joinWindow JOIN_GAP s), (y.start < y.stop) ∧
          betweenCond (s.start - JOIN_GAP) (s.stop + JOIN_GAP) y = true ∧
          apart JOIN_GAP x y := by
        intro y hyW
        rw [List.mem_filter] at hyW
        obtain ⟨hydb, hywin⟩ := hyW
        have hy2 : similarCond s y = true ∧
            betweenCond (s.start - JOIN_GAP) (s.stop + JOIN_GAP) y = true := by
          unfold joinWindow at hywin
          exact Bool.and_eq_true_iff.mp hywin
        refine ⟨hdb y hydb, hy2.2, ?_⟩
        have hxm : x ∈ db.filter (similarCond s) := List.mem_filter.mpr ⟨hxdb, hxsim⟩
        have hym : y ∈ db.filter (similarCond s) := List.mem_filter.mpr ⟨hydb, hy2.1⟩
        have hne : x ≠ y := by
          intro hxy
          rw [hxy] at hwin
          rw [hywin] at hwin
          simp at hwin
        exact canonical_pairs hcanon x hxm y hym hne
      exact apart_symm (apart_of_outside_window s x _ hs (hdb x hxdb) hbc hWp)

/-- C3 witness: saving a fresh OrgReserved interval [1000, 1100] with join
into a store holding the identity-matching row [0, 100] (a canonical class)
leaves the class canonical. -/
theorem save_join_preserves_canonical_witness :
    canonical
      (([{ id := some 1, start := 0, stop := 100, kind := Kind_OrganizationReserved,
           resource := 1, organization := some 1, manager := none, comment := none },
         { id := none, start := 1000, stop := 1100, kind := Kind_OrganizationReserved,
           resource := 1, organization := some 1, manager := none, comment := none }] :
        List Ival).filter
        (similarCond
          { id := none, start := 1000, stop := 1100, kind := Kind_OrganizationReserved,
            resource := 1, organization := some 1, manager := none, comment := none })) :=
  save_join_preserves_canonical
    ⟨fun _ _ => true, fun _ _ => true, fun _ => false⟩
    { id := none, start := 1000, stop := 1100, kind := Kind_OrganizationReserved,
      resource := 1, organization := some 1, manager := none, comment := none }
    [{ id := some 1, start := 0, stop := 100, kind := Kind_OrganizationReserved,
       resource := 1, organization := some 1, manager := none, comment := none }]
    rfl (by decide) (by decide) (by decide)
    ({ id := none, start := 1000, stop := 1100, kind := Kind_OrganizationReserved,
       resource := 1, organization := some 1, manager := none, comment := none },
     [{ id := some 1, start := 0, stop := 100, kind := Kind_OrganizationReserved,
        resource := 1, organization := some 1, manager := none, comment := none },
      { id := none, start := 1000, stop := 1100, kind := Kind_OrganizationReserved,
        resource := 1, organization := some 1, manager := none, comment := none }])
    (by rfl)

/-- C3 counterexample: a committed subtract violates the invariant.
Subtracting the 2-minute span [50, 52] (clear-unavailable) from the single
canonical Unavailable row [0, 100] commits two identity-matching rows
[0, 50] and [52, 100] whose gap (2 minutes) is strictly below
JOIN_GAP = 5 minutes. -/
theorem substract_breaks_canonical :
    canonical [{ id := some 1, start := 0, stop := 100, kind := Kind_Unavailable,
                 resource := 1, organization := none, manager := none, comment := none }] ∧
    (substract_from_existing_db
        { start := 50, stop := 52, kind := Kind_Unavailable, resource := 1 }
        [{ id := some 1, start := 0, stop := 100, kind := Kind_Unavailable,
           resource := 1, organization := none, manager := none, comment := none }]
        (substractDefaultT
          { start := 50, stop := 52, kind := Kind_Unavailable, resource := 1 })).1 =
      [{ id := some 1, start := 0, stop := 50, kind := Kind_Unavailable,
         resource := 1, organization := none, manager := none, comment := none },
       { id := none, start := 52, stop := 100, kind := Kind_Unavailable,
         resource := 1, organization := none, manager := none, comment := none }] ∧
    similarCond
      { id := some 1, start := 0, stop := 50, kind := Kind_Unavailable,
        resource := 1, organization := none, manager := none, comment := none }
      { id := none, start := 52, stop := 100, kind := Kind_Unavailable,
        resource := 1, organization := none, manager := none, comment := none } = true ∧
    ¬ apart JOIN_GAP
      { id := some 1, start := 0, stop := 50, kind := Kind_Unavailable,
        resource := 1, organization := none, manager := none, comment := none }
      { id := none, start := 52, stop := 100, kind := Kind_Unavailable,
        resource := 1, organization := none, manager := none, comment := none } := by
  refine ⟨by decide, by decide, by decide, by decide⟩

/-! ### Claim C8 -/

/-- is_continuous of an empty queryset is false. -/
theorem is_continuous_nil (a b : ℤ) : is_continuous [] a b = false := rfl

/-- is_continuous of a one-row queryset just compares its bounds. -/
theorem is_continuous_single (x : Ival) (a b : ℤ) :
    is_continuous [x] a b = (decide (x.start ≤ a) && decide (x.stop ≥ b)) := rfl

/-- Distinct members of a list with pairwise distinct ids have distinct
ids. -/
theorem id_distinct_pairs {db : List Ival}
    (h : db.Pairwise fun a b => a.id ≠ b.id) :
    ∀ a ∈ db, ∀ b ∈ db, a ≠ b → a.id ≠ b.id := by
  intro a ha b hb hne
  exact List.Pairwise.forall (fun x y hxy => hxy.symm) h ha hb hne

/-- A filter keeping exactly one member of a list with pairwise distinct
ids returns that single member. -/
theorem filter_eq_single_of_ids {db : List Ival} {p : Ival → Bool} {o : Ival}
    (hpair : db.Pairwise fun a b => a.id ≠ b.id)
    (ho : o ∈ db) (hp : p o = true)
    (hothers : ∀ x ∈ db, x ≠ o → p x = false) :
    db.filter p = [o] := by
  induction db with
  | nil => simp at ho
  | cons a db ih =>
    rw [List.pairwise_cons] at hpair
    rcases List.mem_cons.mp ho with rfl | ho'
    · rw [List.filter_cons, if_pos (by simpa using hp)]
      have : db.filter p = [] := by
        rw [List.filter_eq_nil_iff]
        intro x hx
        have hxo : x ≠ o := by
          intro hxy
          exact (hpair.1 x hx) (by rw [hxy])
        simp [hothers x (by simp [hx]) hxo]
      rw [this]
    · have hao : a ≠ o := by
        intro hay
        exact (hpair.1 o ho') (by rw [hay])
      rw [List.filter_cons, if_neg (by simp [hothers a (by simp) hao])]
      exact ih hpair.2 ho' (fun x hx hxo => hothers x (by simp [hx]) hxo)

/-- Filtering a truncated store filters the original rows through the
truncation. -/
theorem filter_truncMarked (p : Ival → Bool) (now : ℤ) (done db : List Ival) :
    (truncMarked now done db).filter p =
      (db.filter fun o =>
        p (if o ∈ done then { o with stop := now } else o)).map
        fun o => if o ∈ done then { o with stop := now } else o := by
  unfold truncMarked
  rw [List.filter_map]
  rfl

/-- Unfolding of the similar condition into propositional form. -/
theorem similarCond_iff (s o : Ival) :
    similarCond s o = true ↔
      (o.resource = s.resource ∧ o.kind = s.kind ∧ o.organization = s.organization ∧
        o.manager = s.manager ∧ (s.id.isNone = true ∨ o.id ≠ s.id)) := by
  simp [similarCond, and_assoc, bne_iff_ne]

/-- In a canonical store (same-class rows pairwise JOIN_GAP apart), the
join window of a selected row truncated to `now` is empty over the
partially truncated store: the row itself is excluded by its primary key,
a same-class row already truncated would have had to cover `now` as well —
impossible for two rows JOIN_GAP apart — and an untruncated same-class row
lies at least JOIN_GAP away from [start, stop] ⊇ [start, now], hence
outside the window widened by JOIN_GAP with strict bounds. -/
theorem truncMarked_join_empty (ctx : Ctx) (rs og now : ℤ) (i : Ival)
    (done db : List Ival) (H : StripHyps ctx rs og now db)
    (hdone : ∀ x ∈ done, x ∈ db ∧ stripSelCond rs og now x = true)
    (hi : i ∈ db) (hid : i.id.isSome = true)
    (h1 : i.start < now) (h2 : now < i.stop)
    (hnotdone : i ∉ done) :
    (truncMarked now done db).filter
      (joinWindow JOIN_GAP { i with stop := now }) = [] := by
  rw [List.filter_eq_nil_iff]
  intro y hy
  obtain ⟨x, hx, rfl⟩ := List.mem_map.mp hy
  unfold joinWindow
  rw [Bool.and_eq_true_iff]
  rintro ⟨hsim, hbc⟩
  rw [similarCond_iff] at hsim
  obtain ⟨hr, hk, ho, hm, hid'⟩ := hsim
  have hfields : (if x ∈ done then { x with stop := now } else x).resource = x.resource ∧
      (if x ∈ done then { x with stop := now } else x).kind = x.kind ∧
      (if x ∈ done then { x with stop := now } else x).organization = x.organization ∧
      (if x ∈ done then { x with stop := now } else x).manager = x.manager ∧
      (if x ∈ done then { x with stop := now } else x).id = x.id := by
    by_cases hd : x ∈ done <;> simp [hd]
  by_cases hxi : x = i
  · subst hxi
    rcases hid' with hnone | hne
    · simp at hnone
      rw [hnone] at hid
      simp at hid
    · exact hne (by rw [hfields.2.2.2.2])
  · have hap := H.class_apart x hx i hi hxi
      (by rw [← hfields.1]; exact hr) (by rw [← hfields.2.1]; exact hk)
      (by rw [← hfields.2.2.1]; exact ho) (by rw [← hfields.2.2.2.1]; exact hm)
    have hJ : JOIN_GAP = (5 : ℤ) := rfl
    have hxwf := H.wf x hx
    unfold apart at hap
    by_cases hd : x ∈ done
    · have hsel := (hdone x hd).2
      simp only [stripSelCond, Bool.and_eq_true, decide_eq_true_eq, beq_iff_eq] at hsel
      omega
    · rw [if_neg hd] at hbc
      simp only [betweenCond, decide_eq_true_eq, ne_eq, Bool.and_eq_true] at hbc
      omega

/-- Persisting the truncated row into the partially truncated store marks
exactly that row as truncated. -/
theorem persist_truncMarked (i : Ival) (now : ℤ) (done db : List Ival)
    (hi : i ∈ db) (hid : i.id.isSome = true)
    (hids : db.Pairwise fun a b => a.id ≠ b.id)
    (hnotdone : i ∉ done) :
    persist { i with stop := now } (truncMarked now done db) =
      truncMarked now (done ++ [i]) db := by
  obtain ⟨k, hk⟩ := Option.isSome_iff_exists.mp hid
  unfold persist
  have hik : ({ i with stop := now } : Ival).id = some k := hk
  rw [hik]
  unfold truncMarked
  rw [List.map_map]
  apply List.map_congr_left
  intro x hx
  by_cases hxi : x = i
  · subst hxi
    simp [Function.comp, hnotdone, hk]
  · have hxid : x.id ≠ some k := by
      rw [← hk]
      exact id_distinct_pairs hids x hx i hi hxi
    by_cases hd : x ∈ done
    · simp [Function.comp, hd, beq_iff_eq, hxid]
    · simp [Function.comp, hd, beq_iff_eq, hxid, hxi]

/-- For a selected ManagerReserved row, the OrgReserved window over the
partially truncated store is continuous over [start, now]: it consists of
exactly the covering OrgReserved row (possibly already truncated to now). -/
theorem strip_mgr_continuity (ctx : Ctx) (rs og now : ℤ) (db : List Ival)
    (H : StripHyps ctx rs og now db) (done : List Ival)
    (hdone : ∀ x ∈ done, x ∈ db ∧ stripSelCond rs og now x = true)
    (i : Ival) (hi : i ∈ db) (hk : i.kind = Kind_ManagerReserved)
    (h1 : i.start < now) (h2 : now < i.stop) (h3 : i.resource = rs)
    (h4 : i.organization = some og) :
    is_continuous (orgWindow { i with stop := now } (truncMarked now done db))
      i.start now = true := by
  obtain ⟨oc, hocdb, hock, hocr, hoco, hocle, hocge⟩ :=
    H.mgr_covered i hi hk h3 h4 h1 h2
  have hocni : oc ≠ i := by
    intro h
    rw [h, hk] at hock
    simp [Kind_ManagerReserved, Kind_OrganizationReserved] at hock
  have hocid : oc.id ≠ i.id := id_distinct_pairs H.ids_distinct oc hocdb i hi hocni
  have hocwf := H.wf oc hocdb
  unfold orgWindow saveQs between
  simp only [betweenStart, betweenStop]
  rw [List.filter_filter, List.filter_filter, filter_truncMarked]
  rw [filter_eq_single_of_ids H.ids_distinct hocdb ?hp ?hothers]
  case hp =>
    set u : Ival := (if oc ∈ done then { oc with stop := now } else oc) with hu
    have hustop : u.stop = now ∨ u.stop = oc.stop := by
      rw [hu]; by_cases hd : oc ∈ done <;> simp [hd]
    have hustart : u.start = oc.start := by
      rw [hu]; by_cases hd : oc ∈ done <;> simp [hd]
    have hukind : u.kind = oc.kind := by
      rw [hu]; by_cases hd : oc ∈ done <;> simp [hd]
    have huorg : u.organization = oc.organization := by
      rw [hu]; by_cases hd : oc ∈ done <;> simp [hd]
    have hures : u.resource = oc.resource := by
      rw [hu]; by_cases hd : oc ∈ done <;> simp [hd]
    have huid : u.id = oc.id := by
      rw [hu]; by_cases hd : oc ∈ done <;> simp [hd]
    simp only [Bool.and_eq_true, beq_iff_eq, Bool.or_eq_true, bne_iff_ne, ne_eq,
      betweenCond, decide_eq_true_eq, hukind, huorg, hures, huid, hustart,
      hock, hoco, h4, hocr, h3, hocid, not_false_eq_true, or_true, and_true, true_and]
    rcases hustop with h | h <;> rw [h] <;> omega
  case hothers =>
    intro x hx hxoc
    rw [Bool.eq_false_iff]
    intro hP
    set u : Ival := (if x ∈ done then { x with stop := now } else x) with hu
    have hukind : u.kind = x.kind := by
      rw [hu]; by_cases hd : x ∈ done <;> simp [hd]
    have huorg : u.organization = x.organization := by
      rw [hu]; by_cases hd : x ∈ done <;> simp [hd]
    have hures : u.resource = x.resource := by
      rw [hu]; by_cases hd : x ∈ done <;> simp [hd]
    simp only [Bool.and_eq_true, beq_iff_eq] at hP
    have hxk : x.kind = Kind_OrganizationReserved := by
      rw [← hukind]; exact hP.1.1.1
    have hxo : x.organization = some og := by
      rw [← huorg, hP.1.1.2]; exact h4
    have hxr : x.resource = rs := by
      rw [← hures, hP.1.2.1]; exact h3
    have hap := H.class_apart x hx oc hocdb hxoc (by rw [hxr, hocr])
      (by rw [hxk, hock]) (by rw [hxo, hoco])
      (by rw [H.org_no_manager x hx hxk, H.org_no_manager oc hocdb hock])
    have hJ : JOIN_GAP = (5 : ℤ) := rfl
    have hxwf := H.wf x hx
    unfold apart at hap
    by_cases hd : x ∈ done
    · have hsel := (hdone x hd).2
      simp only [stripSelCond, Bool.and_eq_true, decide_eq_true_eq, beq_iff_eq] at hsel
      omega
    · have hPbc := hP.2
      have hux : u = x := by rw [hu, if_neg hd]
      rw [hux] at hPbc
      simp only [betweenCond, decide_eq_true_eq, ne_eq, Bool.and_eq_true] at hPbc
      omega
  rw [List.map_cons, List.map_nil, is_continuous_single]
  set u : Ival := (if oc ∈ done then { oc with stop := now } else oc) with hu
  have hustop : u.stop = now ∨ u.stop = oc.stop := by
    rw [hu]; by_cases hd : oc ∈ done <;> simp [hd]
  have hustart : u.start = oc.start := by
    rw [hu]; by_cases hd : oc ∈ done <;> simp [hd]
  simp only [Bool.and_eq_true, decide_eq_true_eq, hustart]
  rcases hustop with h | h <;> rw [h] <;> exact ⟨by omega, by omega⟩

/-- For a selected ManagerReserved row i, no ManagerReserved row of the
truncated store meets the save queryset between i.start and now: i itself
is excluded by its primary key and distinct manager rows on the resource
are disjoint from i's span. -/
theorem strip_mgr_other_empty (ctx : Ctx) (rs og now : ℤ) (db : List Ival)
    (H : StripHyps ctx rs og now db) (done : List Ival)
    (hdone : ∀ x ∈ done, x ∈ db ∧ stripSelCond rs og now x = true)
    (i : Ival) (hi : i ∈ db) (hk : i.kind = Kind_ManagerReserved)
    (h1 : i.start < now) (h2 : now < i.stop) (hnd : i ∉ done)
    (q : Ival → Bool) (hq : ∀ u : Ival, q u = true → u.kind = Kind_ManagerReserved) :
    ((saveQs { i with stop := now } (truncMarked now done db)).filter q) = [] := by
  unfold saveQs between
  simp only [betweenStart, betweenStop]
  rw [List.filter_filter, List.filter_filter, filter_truncMarked]
  rw [List.map_eq_nil_iff, List.filter_eq_nil_iff]
  intro x hx hP
  set u : Ival := (if x ∈ done then { x with stop := now } else x) with hu
  simp only [Bool.and_eq_true, beq_iff_eq, Bool.or_eq_true, bne_iff_ne, ne_eq] at hP
  obtain ⟨⟨hPq, hPr, hPid⟩, hPbc⟩ := hP
  by_cases hxi : x = i
  · subst hxi
    have hui : u = x := by rw [hu, if_neg hnd]
    obtain ⟨k, hk2⟩ := Option.isSome_iff_exists.mp (H.ids_some x hx)
    rw [hui] at hPid
    simp [hk2] at hPid
  · have hukind : u.kind = x.kind := by
      rw [hu]; by_cases hd : x ∈ done <;> simp [hd]
    have hures : u.resource = x.resource := by
      rw [hu]; by_cases hd : x ∈ done <;> simp [hd]
    have hxk : x.kind = Kind_ManagerReserved := by
      rw [← hukind]; exact hq u hPq
    have hxres : x.resource = i.resource := by
      rw [← hures]; exact hPr
    have hdisj := H.mgr_disjoint x hx i hi hxi hxk hk hxres
    have hxwf := H.wf x hx
    have hxnd : x ∉ done := by
      intro hd
      have hsel := (hdone x hd).2
      simp only [stripSelCond, Bool.and_eq_true, decide_eq_true_eq, beq_iff_eq] at hsel
      omega
    have hux : u = x := by rw [hu, if_neg hxnd]
    rw [hux] at hPbc
    simp only [betweenCond, decide_eq_true_eq, ne_eq, Bool.and_eq_true] at hPbc
    omega

/-- For a selected row i, every row fully matching i's identity class is
excluded from the save queryset filters: i itself by its primary key, a
same-class row already truncated would have had to cover `now` as well —
impossible for two rows JOIN_GAP apart — and an untruncated same-class row
lies at least JOIN_GAP outside [i.start, i.stop] ⊇ [i.start, now], hence
outside the save query window. -/
theorem strip_class_empty (ctx : Ctx) (rs og now : ℤ) (db : List Ival)
    (H : StripHyps ctx rs og now db) (done : List Ival)
    (hdone : ∀ x ∈ done, x ∈ db ∧ stripSelCond rs og now x = true)
    (i : Ival) (hi : i ∈ db) (hnd : i ∉ done)
    (h1 : i.start < now) (h2 : now < i.stop)
    (q : Ival → Bool)
    (hq : ∀ u : Ival, q u = true → u.kind = i.kind ∧ u.organization = i.organization)
    (hqm : ∀ x ∈ db, x.kind = i.kind → x.organization = i.organization →
      q (if x ∈ done then { x with stop := now } else x) = true →
      x.manager = i.manager) :
    ((saveQs { i with stop := now } (truncMarked now done db)).filter q) = [] := by
  unfold saveQs between
  simp only [betweenStart, betweenStop]
  rw [List.filter_filter, List.filter_filter, filter_truncMarked]
  rw [List.map_eq_nil_iff, List.filter_eq_nil_iff]
  intro x hx hP
  set u : Ival := (if x ∈ done then { x with stop := now } else x) with hu
  simp only [Bool.and_eq_true, beq_iff_eq, Bool.or_eq_true, bne_iff_ne, ne_eq] at hP
  obtain ⟨⟨hPq, hPr, hPid⟩, hPbc⟩ := hP
  obtain ⟨hQk, hQo⟩ := hq u hPq
  by_cases hxi : x = i
  · subst hxi
    have hui : u = x := by rw [hu, if_neg hnd]
    obtain ⟨k, hk2⟩ := Option.isSome_iff_exists.mp (H.ids_some x hx)
    rw [hui] at hPid
    simp [hk2] at hPid
  · have hukind : u.kind = x.kind := by
      rw [hu]; by_cases hd : x ∈ done <;> simp [hd]
    have hures : u.resource = x.resource := by
      rw [hu]; by_cases hd : x ∈ done <;> simp [hd]
    have huorg : u.organization = x.organization := by
      rw [hu]; by_cases hd : x ∈ done <;> simp [hd]
    have hxk : x.kind = i.kind := by rw [← hukind]; exact hQk
    have hxo : x.organization = i.organization := by rw [← huorg]; exact hQo
    have hxm : x.manager = i.manager := hqm x hx hxk hxo (hu ▸ hPq)
    have hxr : x.resource = i.resource := by rw [← hures]; exact hPr
    have hap := H.class_apart x hx i hi hxi hxr hxk hxo hxm
    have hJ : JOIN_GAP = (5 : ℤ) := rfl
    have hxwf := H.wf x hx
    unfold apart at hap
    by_cases hd : x ∈ done
    · have hsel := (hdone x hd).2
      simp only [stripSelCond, Bool.and_eq_true, decide_eq_true_eq, beq_iff_eq] at hsel
      omega
    · have hux : u = x := by rw [hu, if_neg hd]
      rw [hux] at hPbc
      simp only [betweenCond, decide_eq_true_eq, ne_eq, Bool.and_eq_true] at hPbc
      omega

/-- For a selected OrgReserved row i, no OrgReserved row of another
organization meets the save queryset between i.start and now: org rows on
the resource are pairwise disjoint across identities. -/
theorem strip_org_other_empty (ctx : Ctx) (rs og now : ℤ) (db : List Ival)
    (H : StripHyps ctx rs og now db) (done : List Ival)
    (hdone : ∀ x ∈ done, x ∈ db ∧ stripSelCond rs og now x = true)
    (i : Ival) (hi : i ∈ db) (hk : i.kind = Kind_OrganizationReserved)
    (h1 : i.start < now) (h2 : now < i.stop) (h4 : i.organization = some og)
    (hnd : i ∉ done)
    (q : Ival → Bool)
    (hq : ∀ u : Ival, q u = true → u.kind = Kind_OrganizationReserved ∧
      u.organization ≠ i.organization) :
    ((saveQs { i with stop := now } (truncMarked now done db)).filter q) = [] := by
  unfold saveQs between
  simp only [betweenStart, betweenStop]
  rw [List.filter_filter, List.filter_filter, filter_truncMarked]
  rw [List.map_eq_nil_iff, List.filter_eq_nil_iff]
  intro x hx hP
  set u : Ival := (if x ∈ done then { x with stop := now } else x) with hu
  simp only [Bool.and_eq_true, beq_iff_eq, Bool.or_eq_true, bne_iff_ne, ne_eq] at hP
  obtain ⟨⟨hPq, hPr, hPid⟩, hPbc⟩ := hP
  obtain ⟨hQk, hQo⟩ := hq u hPq
  have hukind : u.kind = x.kind := by
    rw [hu]; by_cases hd : x ∈ done <;> simp [hd]
  have hures : u.resource = x.resource := by
    rw [hu]; by_cases hd : x ∈ done <;> simp [hd]
  have huorg : u.organization = x.organization := by
    rw [hu]; by_cases hd : x ∈ done <;> simp [hd]
  by_cases hxi : x = i
  · subst hxi
    exact hQo (by rw [huorg])
  · have hxk : x.kind = Kind_OrganizationReserved := by
      rw [← hukind]; exact hQk
    have hxres : x.resource = i.resource := by
      rw [← hures]; exact hPr
    have hdisj := H.org_disjoint x hx i hi hxi hxk hk hxres
    have hxwf := H.wf x hx
    have hxnd : x ∉ done := by
      intro hd
      have hsel := (hdone x hd).2
      simp only [stripSelCond, Bool.and_eq_true, decide_eq_true_eq, beq_iff_eq] at hsel
      have hxo : x.organization = some og := hsel.2.2
      exact hQo (by rw [huorg, hxo, h4])
    have hux : u = x := by rw [hu, if_neg hxnd]
    rw [hux] at hPbc
    simp only [betweenCond, decide_eq_true_eq, ne_eq, Bool.and_eq_true] at hPbc
    omega

set_option maxHeartbeats 1600000 in
/-- One iteration of the strip_organization_time loop: saving a selected
row with its end truncated to `now` validates, joins nothing, and persists
exactly that truncation. -/
theorem strip_save_ok (ctx : Ctx) (rs og now : ℤ) (db : List Ival)
    (H : StripHyps ctx rs og now db) (done : List Ival)
    (hdone : ∀ x ∈ done, x ∈ db ∧ stripSelCond rs og now x = true)
    (i : Ival) (hi : i ∈ db) (hsel : stripSelCond rs og now i = true)
    (hnd : i ∉ done) :
    save ctx { i with stop := now } (truncMarked now done db) =
      .ok ({ i with stop := now }, truncMarked now (done ++ [i]) db) := by
  have hsel' := hsel
  simp only [stripSelCond, Bool.and_eq_true, decide_eq_true_eq, beq_iff_eq] at hsel'
  obtain ⟨⟨h1, h2⟩, h3, h4⟩ := hsel'
  have hidS : i.id.isSome = true := H.ids_some i hi
  have hjow := truncMarked_join_empty ctx rs og now i done db H hdone hi hidS h1 h2 hnd
  have hper := persist_truncMarked i now done db hi hidS H.ids_distinct hnd
  have hcommit : saveCommit { i with stop := now } (truncMarked now done db) true =
      ({ i with stop := now }, truncMarked now (done ++ [i]) db) := by
    simp only [saveCommit, join_with_existing_db, hjow, List.isEmpty_nil, if_true, hper]
  unfold save
  dsimp only
  rw [if_neg (show ¬(i.start ≥ now) by omega)]
  rw [if_neg (show ¬(i.organization.isNone = true ∧ i.kind ≠ Kind_Unavailable) by
    rw [h4]; simp)]
  rw [if_neg (show ¬(i.organization.isSome = true ∧ i.manager.isSome = true ∧
      ¬ctx.managerInOrg (i.manager.getD 0) i.organization = true) by
    rintro ⟨-, -, hb⟩; exact hb (H.ctx_mgr _ _))]
  rw [if_neg (show ¬(i.organization.isSome = true ∧
      ¬ctx.resourceInOrg i.resource i.organization = true) by
    rintro ⟨-, hb⟩; exact hb (H.ctx_res _ _))]
  by_cases hk10 : i.kind = Kind_ManagerReserved
  · rw [if_pos hk10]
    rw [if_neg (show ¬(i.manager.isNone = true) by
      have h5 := H.mgr_has_manager i hi hk10
      intro h
      rw [Option.isNone_iff_eq_none] at h
      rw [h] at h5
      simp at h5)]
    rw [if_neg (not_not_intro
      (strip_mgr_continuity ctx rs og now db H done hdone i hi hk10 h1 h2 h3 h4))]
    rw [if_neg (not_not_intro (strip_mgr_other_empty ctx rs og now db H done hdone
      i hi hk10 h1 h2 hnd _ (by
        intro u hu
        simp only [Bool.and_eq_true, beq_iff_eq] at hu
        exact hu.1)))]
    rw [if_neg (show ¬(is_continuous ((saveQs { i with stop := now }
        (truncMarked now done db)).filter fun o =>
          o.kind == Kind_ManagerReserved && o.organization == i.organization
            && o.manager == i.manager) i.start now = true) by
      rw [strip_class_empty ctx rs og now db H done hdone i hi hnd h1 h2 _
        (by
          intro u hu
          simp only [Bool.and_eq_true, beq_iff_eq] at hu
          exact ⟨by rw [hu.1.1, hk10], hu.1.2⟩)
        (by
          intro x hx hk ho hq
          simp only [Bool.and_eq_true, beq_iff_eq] at hq
          have hm : (if x ∈ done then { x with stop := now } else x).manager =
              x.manager := by
            by_cases hd : x ∈ done <;> simp [hd]
          rw [← hm]
          exact hq.2), is_continuous_nil]
      simp)]
    rw [hcommit]
  · rw [if_neg hk10]
    by_cases hk0 : i.kind = Kind_OrganizationReserved
    · rw [if_pos hk0]
      rw [if_neg (show ¬(is_continuous (orgWindow { i with stop := now }
          (truncMarked now done db)) i.start now = true) by
        rw [show orgWindow { i with stop := now } (truncMarked now done db) =
            (saveQs { i with stop := now } (truncMarked now done db)).filter
              (fun o => o.kind == Kind_OrganizationReserved && o.organization ==
                ({ i with stop := now } : Ival).organization) from rfl]
        rw [strip_class_empty ctx rs og now db H done hdone i hi hnd h1 h2 _
          (by
            intro u hu
            simp only [Bool.and_eq_true, beq_iff_eq] at hu
            exact ⟨by rw [hu.1, hk0], hu.2⟩)
          (by
            intro x hx hk ho hq
            rw [H.org_no_manager x hx (by rw [hk, hk0]),
              H.org_no_manager i hi hk0]), is_continuous_nil]
        simp)]
      rw [if_neg (not_not_intro (strip_org_other_empty ctx rs og now db H done hdone
        i hi hk0 h1 h2 h4 hnd _ (by
          intro u hu
          simp only [Bool.and_eq_true, beq_iff_eq, bne_iff_ne] at hu
          exact ⟨hu.1, hu.2⟩)))]
      rw [if_neg (show ¬(ctx.scheduleConflict { i with stop := now } = true) by
        rw [H.ctx_sched]; simp)]
      rw [hcommit]
    · rw [if_neg hk0]
      rw [hcommit]


/-- The strip loop over distinct selected rows: starting from the store
with a set `done` of them already truncated, it succeeds and truncates the
rest as well. -/
theorem strip_fold (ctx : Ctx) (rs og now : ℤ) (db : List Ival)
    (H : StripHyps ctx rs og now db) : ∀ (todo done : List Ival),
    (∀ x ∈ done, x ∈ db ∧ stripSelCond rs og now x = true) →
    (∀ x ∈ todo, x ∈ db ∧ stripSelCond rs og now x = true) →
    (∀ x ∈ todo, x ∉ done) →
    todo.Pairwise (fun a b => a ≠ b) →
    List.foldlM (fun st i => do
        let r ← save ctx { i with stop := now } st
        pure r.2) (truncMarked now done db) todo =
      Except.ok (truncMarked now (done ++ todo) db) := by
  intro todo
  induction todo with
  | nil =>
    intro done _ _ _ _
    simp only [List.foldlM_nil, List.append_nil]
    rfl
  | cons i rest ih =>
    intro done hdone htodo hdisj hpair
    have hi := (htodo i (List.mem_cons_self i rest)).1
    have hsel := (htodo i (List.mem_cons_self i rest)).2
    have hnd := hdisj i (List.mem_cons_self i rest)
    have hsave := strip_save_ok ctx rs og now db H done hdone i hi hsel hnd
    simp only [List.foldlM_cons]
    rw [hsave]
    have hrest := ih (done ++ [i])
      (by
        intro x hx
        rcases List.mem_append.1 hx with h | h
        · exact hdone x h
        · have hxi := List.mem_singleton.1 h
          rw [hxi]
          exact ⟨hi, hsel⟩)
      (fun x hx => htodo x (List.mem_cons_of_mem _ hx))
      (by
        intro x hx
        rw [List.mem_append]
        rintro (h | h)
        · exact hdisj x (List.mem_cons_of_mem _ hx) h
        · exact (List.pairwise_cons.1 hpair).1 x hx (List.mem_singleton.1 h).symm)
      ((List.pairwise_cons.1 hpair).2)
    rw [List.append_assoc, List.singleton_append] at hrest
    exact hrest

set_option maxHeartbeats 800000 in
/-- C8: under the store invariants, strip_organization_time returns the
watermark `now` together with the store in which the end of exactly those
rows of (resource, organization) that strictly cover `now` — of ANY kind,
not only OrgReserved — is set to `now`, every other row keeping its bounds. -/
theorem strip_organization_time_spec (ctx : Ctx) (rs og now : ℤ) (db : List Ival)
    (H : StripHyps ctx rs og now db) :
    strip_organization_time ctx rs og now db =
      Except.ok (now, db.map fun o =>
        if stripSelCond rs og now o then { o with stop := now } else o) := by
  have hsel : ((at_date db now).filter fun o =>
      o.resource == rs && o.organization == some og) =
      db.filter (stripSelCond rs og now) := by
    unfold at_date stripSelCond
    rw [List.filter_filter]
    refine List.filter_congr ?_
    intro a _
    rw [Bool.and_comm]
  have htm0 : truncMarked now [] db = db := by
    simp [truncMarked]
  have hmain := strip_fold ctx rs og now db H (db.filter (stripSelCond rs og now)) []
    (by intro x hx; exact absurd hx (List.not_mem_nil x))
    (by
      intro x hx
      exact ⟨(List.mem_filter.1 hx).1, (List.mem_filter.1 hx).2⟩)
    (by intro x _; exact List.not_mem_nil x)
    ((H.ids_distinct.filter _).imp fun h heq => h (congrArg Ival.id heq))
  rw [htm0, List.nil_append] at hmain
  have hT : truncMarked now (db.filter (stripSelCond rs og now)) db =
      db.map fun o =>
        if stripSelCond rs og now o then { o with stop := now } else o := by
    unfold truncMarked
    refine List.map_congr_left ?_
    intro o ho
    by_cases hc : stripSelCond rs og now o = true
    · rw [if_pos (List.mem_filter.2 ⟨ho, hc⟩), if_pos hc]
    · rw [if_neg (fun hmem => hc (List.mem_filter.1 hmem).2), if_neg hc]
  simp only [strip_organization_time]
  rw [hsel, hmain]
  show Except.ok (now, truncMarked now (db.filter (stripSelCond rs og now)) db) = _
  rw [hT]

/-- C8 witness: the theorem applied to a store holding two OrgReserved
rows [0, 100] and [120, 180] of one identity class (JOIN_GAP apart), a
ManagerReserved row [10, 60] and an Unavailable row [200, 300] on resource
1, stripping organization 1 at now = 50: the covering OrgReserved and
ManagerReserved rows are truncated, the later OrgReserved row of the same
class and the Unavailable row are untouched. -/
theorem strip_organization_time_spec_witness :
    strip_organization_time ⟨fun _ _ => true, fun _ _ => true, fun _ => false⟩ 1 1 50
        [⟨some 1, 0, 100, Kind_OrganizationReserved, 1, some 1, none, none⟩,
         ⟨some 2, 10, 60, Kind_ManagerReserved, 1, some 1, some 5, none⟩,
         ⟨some 3, 200, 300, Kind_Unavailable, 1, none, none, none⟩,
         ⟨some 4, 120, 180, Kind_OrganizationReserved, 1, some 1, none, none⟩] =
      Except.ok (50, List.map (fun o =>
          if stripSelCond 1 1 50 o then { o with stop := 50 } else o)
        [⟨some 1, 0, 100, Kind_OrganizationReserved, 1, some 1, none, none⟩,
         ⟨some 2, 10, 60, Kind_ManagerReserved, 1, some 1, some 5, none⟩,
         ⟨some 3, 200, 300, Kind_Unavailable, 1, none, none, none⟩,
         ⟨some 4, 120, 180, Kind_OrganizationReserved, 1, some 1, none, none⟩]) :=
  strip_organization_time_spec ⟨fun _ _ => true, fun _ _ => true, fun _ => false⟩
    1 1 50 _
    ⟨by decide, by decide, by decide, by decide, by decide, by decide, by decide,
     by decide, by decide, fun _ _ => rfl, fun _ _ => rfl, fun _ => rfl⟩

/-- C8 counterexample to the kind restriction: stripping organization 1 at
now = 50 truncates the end of the covering ManagerReserved row [10, 60] to
50 as well, although the claim says only OrgReserved rows are truncated. -/
theorem strip_truncates_manager_counterexample :
    Kind_ManagerReserved ≠ Kind_OrganizationReserved ∧
    strip_organization_time ⟨fun _ _ => true, fun _ _ => true, fun _ => false⟩ 1 1 50
        [⟨some 1, 0, 100, Kind_OrganizationReserved, 1, some 1, none, none⟩,
         ⟨some 2, 10, 60, Kind_ManagerReserved, 1, some 1, some 5, none⟩] =
      Except.ok (50,
        [⟨some 1, 0, 50, Kind_OrganizationReserved, 1, some 1, none, none⟩,
         ⟨some 2, 10, 50, Kind_ManagerReserved, 1, some 1, some 5, none⟩]) :=
  ⟨by decide, rfl⟩

end RCal
